import Mathlib

/-!
# Verification of the competitor-intelligence signal pipeline

A shallow embedding, in Lean 4, of the data model and the core operations of
the `competitor_intelligence` repository: the v2 upsert storage
(`src/scrapers/pricing.py`, `src/scrapers/products.py`,
`src/database/schema.py`), the snapshot/diff change-detection engine
(`src/scrapers/snapshots.py`, including a faithful model of Python's
`difflib.unified_diff`), the pricing and product extractors, the review-data
recursive JSON searches (`src/scrapers/reviews_trustpilot.py`,
`src/scrapers/reviews_sentiment.py`) and the A/B-framework detector
(`src/scrapers/ab_tests.py`).

Modelling conventions:
* Python `float` prices are modelled as exact integer cents (`Amount`):
  every amount the price regex accepts has at most two decimal digits, so
  the representation is exact and order-isomorphic to the float values.
* Python strings are Lean `String`s; character classes (`\w`, `\s`, case
  folding) are modelled over their ASCII core plus the common Unicode
  whitespace characters.
* HTML text extraction (BeautifulSoup `stripped_strings` / `get_text`) is
  modelled for plain well-formed markup: text is what stands between `<...>`
  tag spans, each text node stripped, whitespace-only nodes dropped.
* SQLite tables are lists of typed rows; `INSERT OR REPLACE` under a UNIQUE
  constraint deletes the conflicting rows and appends the new one.
-/

namespace CompetitorIntel

/-! ## Basic string helpers (Python `str.split` / `str.strip` semantics) -/

/-- Python's whitespace class for `str.split()` / `\s`, restricted to the
characters that actually occur in the data: space, tab, LF, CR, FF, VT,
NEL and NBSP. -/
def pySpace (c : Char) : Bool :=
  c = ' ' || c = '\t' || c = '\n' || c = '\r' || c = '\x0b' || c = '\x0c' ||
  c = '\x85' || c = '\xa0'

/-- `str.split()` on a character list: maximal runs of non-whitespace. -/
def pySplitChars : List Char → List Char → List (List Char)
  | [], cur => if cur = [] then [] else [cur.reverse]
  | c :: rest, cur =>
    if pySpace c then
      (if cur = [] then [] else [cur.reverse]) ++ pySplitChars rest []
    else
      pySplitChars rest (c :: cur)

/-- Python `text.split()`. -/
def pySplit (s : String) : List String :=
  (pySplitChars s.data []).map String.mk

/-- Python `" ".join(text.split())`: collapse all whitespace runs to single
spaces and strip the ends. -/
def collapseWs (s : String) : String :=
  String.intercalate " " (pySplit s)

/-- Python `str.strip()`. -/
def pyStrip (s : String) : String :=
  String.mk (((s.data.dropWhile pySpace).reverse.dropWhile pySpace).reverse)

/-- Substring occurrence test on char lists, scanning left to right. -/
def listContains : List Char → List Char → Bool
  | _, [] => true
  | [], _ :: _ => false
  | c :: rest, pat =>
    pat.isPrefixOf (c :: rest) || listContains rest pat

/-- Substring test (Python `needle in haystack`). -/
def containsSub (haystack needle : String) : Bool :=
  listContains haystack.data needle.data

/-- ASCII lowercasing of one character (`str.lower()` restricted to its
ASCII core). -/
def lowerChar (c : Char) : Char :=
  if 65 ≤ c.toNat && c.toNat ≤ 90 then Char.ofNat (c.toNat + 32) else c

/-- ASCII uppercasing of one character. -/
def upperChar (c : Char) : Char :=
  if 97 ≤ c.toNat && c.toNat ≤ 122 then Char.ofNat (c.toNat - 32) else c

/-- Python `s.lower()` (ASCII core). -/
def toLowerStr (s : String) : String :=
  String.mk (s.data.map lowerChar)

/-- Python `s.upper()` (ASCII core). -/
def toUpperStr (s : String) : String :=
  String.mk (s.data.map upperChar)

/-- Monetary amounts, in exact hundredths of the currency unit: the Python
float `14.0` is the `Amount` `1400`.  Every amount the price regex accepts
has at most two decimal digits, so this representation is exact and its
ordering and equality agree with the source's float ordering and equality. -/
abbrev Amount := Nat

/-! ## C1: v2 upsert-replace storage

`prices_v2` and `products_v2` (`src/database/schema.py`) both carry
`UNIQUE(competitor_id, scrape_date)`; `_store_price_v2`
(`src/scrapers/pricing.py`) and `_store_product_v2`
(`src/scrapers/products.py`) write with `INSERT OR REPLACE`. -/

/-- An add-on item, `pricing.AddonItem`. -/
structure AddonItem where
  name : String
  price : Amount
deriving DecidableEq, Repr

/-- `pricing.PriceV2Record`. -/
structure PriceV2Record where
  competitor_id : Nat
  scrape_date : String
  scraped_at : String
  main_price : Option Amount
  currency : String
  addons : List AddonItem
  source_url : String
deriving DecidableEq, Repr

/-- `products.ProductV2Record`. -/
structure ProductV2Record where
  competitor_id : Nat
  scrape_date : String
  scraped_at : String
  one_way_offered : Bool
  one_way_price : Option Amount
  round_trip_offered : Bool
  round_trip_price : Option Amount
  hotel_offered : Bool
  hotel_price : Option Amount
  visa_letter_offered : Bool
  visa_letter_price : Option Amount
  source_url : String
deriving DecidableEq, Repr

/-- Whether two `prices_v2` rows collide on the `UNIQUE(competitor_id,
scrape_date)` constraint. -/
def priceKeyEq (a b : PriceV2Record) : Bool :=
  a.competitor_id = b.competitor_id && a.scrape_date = b.scrape_date

/-- `_store_price_v2`: `INSERT OR REPLACE INTO prices_v2 ...` — SQLite
deletes every row that collides on the UNIQUE key, then inserts. -/
def store_price_v2 (tbl : List PriceV2Record) (r : PriceV2Record) :
    List PriceV2Record :=
  tbl.filter (fun x => !priceKeyEq x r) ++ [r]

/-- Whether two `products_v2` rows collide on `UNIQUE(competitor_id,
scrape_date)`. -/
def productKeyEq (a b : ProductV2Record) : Bool :=
  a.competitor_id = b.competitor_id && a.scrape_date = b.scrape_date

/-- `_store_product_v2`: `INSERT OR REPLACE INTO products_v2 ...`. -/
def store_product_v2 (tbl : List ProductV2Record) (r : ProductV2Record) :
    List ProductV2Record :=
  tbl.filter (fun x => !productKeyEq x r) ++ [r]

/-- After an upsert, filtering the table by the new row's key yields the new
row alone: the upsert has already deleted every colliding row. -/
theorem filter_key_after_upsert {α : Type} (p : α → Bool) (l : List α) (r : α)
    (hr : p r = true) :
    ((l.filter (fun x => !p x)) ++ [r]).filter p = [r] := by
  rw [List.filter_append]
  have hnil : (l.filter (fun x => !p x)).filter p = [] := by
    induction l with
    | nil => rfl
    | cons a t ih =>
      by_cases h : p a = true
      · simp [List.filter, h, ih]
      · simp only [Bool.not_eq_true] at h
        simp [List.filter, h, ih]
  rw [hnil, List.nil_append]
  simp [List.filter, hr]

/-- C1. Storing a v2 price record twice for the same `(competitor,
scrape_date)` key leaves exactly one `prices_v2` row for that key — the
second record — and likewise for `products_v2`: the second store replaces
the first row and never adds a duplicate. -/
theorem upsert_v2_idempotent
    (ptbl : List PriceV2Record) (p1 p2 : PriceV2Record)
    (hp : priceKeyEq p1 p2 = true)
    (qtbl : List ProductV2Record) (q1 q2 : ProductV2Record)
    (hq : productKeyEq q1 q2 = true) :
    (store_price_v2 (store_price_v2 ptbl p1) p2).filter
        (fun x => priceKeyEq x p2) = [p2] ∧
    (store_product_v2 (store_product_v2 qtbl q1) q2).filter
        (fun x => productKeyEq x q2) = [q2] := by
  refine ⟨?_, ?_⟩
  · exact filter_key_after_upsert (fun x => priceKeyEq x p2)
      (store_price_v2 ptbl p1) p2 (by simp [priceKeyEq])
  · exact filter_key_after_upsert (fun x => productKeyEq x q2)
      (store_product_v2 qtbl q1) q2 (by simp [productKeyEq])

/-- Sample rows for the C1 witness. -/
def samplePriceRow (at_ : String) (price : Amount) : PriceV2Record :=
  { competitor_id := 1, scrape_date := "2026-10-12", scraped_at := at_,
    main_price := some price, currency := "USD", addons := [],
    source_url := "https://example.com" }

/-- Sample product rows for the C1 witness. -/
def sampleProductRow (at_ : String) : ProductV2Record :=
  { competitor_id := 1, scrape_date := "2026-10-12", scraped_at := at_,
    one_way_offered := true, one_way_price := some 1600,
    round_trip_offered := false, round_trip_price := none,
    hotel_offered := false, hotel_price := none,
    visa_letter_offered := false, visa_letter_price := none,
    source_url := "https://example.com" }

/-- Witness for C1 at concrete rows: the two stores share the key and the
second row alone survives. -/
theorem upsert_v2_idempotent_witness :
    priceKeyEq (samplePriceRow "t1" 1600) (samplePriceRow "t2" 1400) = true ∧
    (store_price_v2 (store_price_v2 [] (samplePriceRow "t1" 1600))
        (samplePriceRow "t2" 1400)).filter
        (fun x => priceKeyEq x (samplePriceRow "t2" 1400)) =
      [samplePriceRow "t2" 1400] ∧
    (store_product_v2 (store_product_v2 [] (sampleProductRow "t1"))
        (sampleProductRow "t2")).filter
        (fun x => productKeyEq x (sampleProductRow "t2")) =
      [sampleProductRow "t2"] := by
  refine ⟨by decide, ?_, ?_⟩
  · exact (upsert_v2_idempotent [] (samplePriceRow "t1" 1600)
      (samplePriceRow "t2" 1400) (by decide) [] (sampleProductRow "t1")
      (sampleProductRow "t2") (by decide)).1
  · exact (upsert_v2_idempotent [] (samplePriceRow "t1" 1600)
      (samplePriceRow "t2" 1400) (by decide) [] (sampleProductRow "t1")
      (sampleProductRow "t2") (by decide)).2

/-! ## HTML visible-text model

BeautifulSoup with `html.parser`, restricted to plain well-formed markup:
the text nodes are the maximal character runs outside `<...>` tag spans.
`stripped_strings` strips each node and drops whitespace-only nodes;
`get_text(" ", strip=True)` joins the stripped nodes with single spaces. -/

/-- Split an HTML character stream into text pieces, skipping tag spans. -/
def splitTagsGo : List Char → Bool → List Char → List String
  | [], _, cur => [String.mk cur.reverse]
  | c :: rest, true, cur =>
    if c = '>' then splitTagsGo rest false cur else splitTagsGo rest true cur
  | c :: rest, false, cur =>
    if c = '<' then String.mk cur.reverse :: splitTagsGo rest true []
    else splitTagsGo rest false (c :: cur)

/-- The raw text pieces of a page, in document order. -/
def textPieces (html : String) : List String :=
  splitTagsGo html.data false []

/-- `soup.stripped_strings`: each text node stripped, empties dropped. -/
def stripped_strings (html : String) : List String :=
  ((textPieces html).map pyStrip).filter (fun s => s ≠ "")

/-- `soup.get_text(" ", strip=True)`. -/
def getTextSep (html : String) : String :=
  String.intercalate " " (stripped_strings html)

/-- `products._page_text`: lowercased visible text of a page. -/
def page_text (html : String) : String :=
  toLowerStr (getTextSep html)

/-! ## The currency-amount regex

`PRICE_PATTERN = (?:USD\s*)?(?P<currency>[$€£])(?P<amount>\d+(?:[.,]\d{1,2})?)`
(identical in `pricing.py` and `products.py`).  The optional `USD\s*` head
never alters the captured groups, so matches are driven by the currency
symbol: a symbol immediately followed by digits, then an optional
one-or-two-digit decimal part (greedy). -/

/-- The currency-symbol character class `[$€£]`. -/
def currencySym (c : Char) : Bool :=
  c = '$' || c = '€' || c = '£'

/-- Parse the amount group `\d+(?:[.,]\d{1,2})?` (greedy) at the head of the
stream; returns the matched characters and the rest. -/
def parseAmountGroup (cs : List Char) : Option (List Char × List Char) :=
  let ds := cs.takeWhile Char.isDigit
  let rest := cs.dropWhile Char.isDigit
  if ds = [] then none
  else
    match rest with
    | sep :: d1 :: rest2 =>
      if (sep = '.' || sep = ',') && d1.isDigit then
        match rest2 with
        | d2 :: rest3 =>
          if d2.isDigit then some (ds ++ [sep, d1, d2], rest3)
          else some (ds ++ [sep, d1], rest2)
        | [] => some (ds ++ [sep, d1], [])
      else some (ds, rest)
    | _ => some (ds, rest)

/-- `PRICE_PATTERN.finditer`: non-overlapping matches, left to right.  The
fuel argument is the length of the remaining stream. -/
def priceMatchesGo : Nat → List Char → List (Char × List Char)
  | 0, _ => []
  | _ + 1, [] => []
  | fuel + 1, c :: rest =>
    if currencySym c then
      match parseAmountGroup rest with
      | some (amt, rest2) => (c, amt) :: priceMatchesGo fuel rest2
      | none => priceMatchesGo fuel rest
    else priceMatchesGo fuel rest

/-- All `(currency symbol, amount text)` matches of `PRICE_PATTERN` in a
string. -/
def priceMatches (s : String) : List (Char × String) :=
  (priceMatchesGo s.length s.data).map (fun m => (m.1, String.mk m.2))

/-- `PRICE_PATTERN.search`: the leftmost match, if any. -/
def priceSearch (s : String) : Option (Char × String) :=
  (priceMatches s).head?

/-- Parse a digit run as a natural number; `none` on any non-digit. -/
def parseNatDigits : List Char → Option Nat
  | [] => some 0
  | c :: rest =>
    if c.isDigit then
      (parseNatDigits rest).map
        (fun n => n + (c.toNat - '0'.toNat) * 10 ^ rest.length)
    else none

/-- `_safe_float`: `float(raw.replace(",", "."))` on a matched amount,
modelled exactly in cents.  The price regex only produces zero, one or two
decimal digits, so the two-digit scaling is exact; longer decimal parts
(unreachable from `PRICE_PATTERN` matches) are rejected. -/
def safe_float (raw : String) : Option Amount :=
  let cs := raw.data.map (fun c => if c = ',' then '.' else c)
  match cs.splitOn '.' with
  | [ds] => (parseNatDigits ds).map (fun n => n * 100)
  | [ds, fs] =>
    if ds = [] && fs = [] then none
    else
      match parseNatDigits ds, parseNatDigits fs with
      | some n, some f =>
        if fs.length = 1 then some (n * 100 + f * 10)
        else if fs.length = 2 then some (n * 100 + f)
        else none
      | _, _ => none
  | _ => none

/-- `_canonical_currency`. -/
def canonical_currency (raw : String) : String :=
  let sym := pyStrip raw
  if sym = "$" || sym = "USD" then "USD"
  else if sym = "€" then "EUR"
  else if sym = "£" then "GBP"
  else toUpperStr sym

/-! ## C7: the product extractor (`src/scrapers/products.py`) -/

/-- `products._ONE_WAY_KEYWORDS`. -/
def ONE_WAY_KEYWORDS : List String :=
  ["one-way", "one way", "onward ticket", "dummy ticket", "flight reservation"]

/-- `products._ROUND_TRIP_KEYWORDS`. -/
def ROUND_TRIP_KEYWORDS : List String :=
  ["round trip", "round-trip", "return", "two-way", "two way"]

/-- `products._HOTEL_KEYWORDS`. -/
def HOTEL_KEYWORDS : List String :=
  ["hotel", "accommodation", "hostel"]

/-- `products._VISA_LETTER_KEYWORDS`. -/
def VISA_LETTER_KEYWORDS : List String :=
  ["visa", "support letter", "invitation letter"]

/-- `products._detect_category`: any keyword occurs in the lowercased page
text. -/
def detect_category (page_lower : String) (keywords : List String) : Bool :=
  keywords.any (fun kw => containsSub page_lower kw)

/-- Index (in characters) of the first occurrence of `pat` in `cs`. -/
def findSubIdx : List Char → List Char → Option Nat
  | _, [] => some 0
  | [], _ :: _ => none
  | c :: rest, pat =>
    if pat.isPrefixOf (c :: rest) then some 0
    else (findSubIdx rest pat).map (· + 1)

/-- Character slice `cs[a:b]` with Python clamping. -/
def sliceChars (cs : List Char) (a b : Nat) : List Char :=
  (cs.drop a).take (b - a)

/-- `products._extract_price_near_keyword`: first `PRICE_PATTERN` amount in
`page_lower[max(0, idx-50) : idx+200]` around the first keyword occurrence
(the unused `full_html_lower` parameter of the source is dropped). -/
def extract_price_near_keyword (page_lower : String) (keyword : String) :
    Option Amount :=
  match findSubIdx page_lower.data keyword.data with
  | none => none
  | some idx =>
    let snippet := String.mk (sliceChars page_lower.data (idx - 50) (idx + 200))
    match priceSearch snippet with
    | none => none
    | some m => safe_float m.2

/-- Accumulator of the page loop in `extract_products_v2`. -/
structure ProdAcc where
  one_way : Bool
  round_trip : Bool
  hotel : Bool
  visa_letter : Bool
  one_way_price : Option Amount
  round_trip_price : Option Amount
  hotel_price : Option Amount
  visa_letter_price : Option Amount
deriving Repr

/-- Initial accumulator: all flags false, all prices `None`. -/
def initProdAcc : ProdAcc :=
  ⟨false, false, false, false, none, none, none, none⟩

/-- The `one_way` block of the page loop of `extract_products_v2`. -/
def stepOneWay (page_lower : String) (acc : ProdAcc) : ProdAcc :=
  if !acc.one_way && detect_category page_lower ONE_WAY_KEYWORDS then
    { acc with
      one_way := true,
      one_way_price :=
        if acc.one_way_price = none then
          ["one-way", "one way", "onward ticket", "dummy ticket"].findSome?
            (extract_price_near_keyword page_lower)
        else acc.one_way_price }
  else acc

/-- The `round_trip` block of the page loop. -/
def stepRoundTrip (page_lower : String) (acc : ProdAcc) : ProdAcc :=
  if !acc.round_trip && detect_category page_lower ROUND_TRIP_KEYWORDS then
    { acc with
      round_trip := true,
      round_trip_price :=
        if acc.round_trip_price = none then
          ["round trip", "round-trip", "return"].findSome?
            (extract_price_near_keyword page_lower)
        else acc.round_trip_price }
  else acc

/-- The `hotel` block of the page loop. -/
def stepHotel (page_lower : String) (acc : ProdAcc) : ProdAcc :=
  if !acc.hotel && detect_category page_lower HOTEL_KEYWORDS then
    { acc with
      hotel := true,
      hotel_price :=
        if acc.hotel_price = none then
          ["hotel", "accommodation", "hostel"].findSome?
            (extract_price_near_keyword page_lower)
        else acc.hotel_price }
  else acc

/-- The `visa_letter` block of the page loop. -/
def stepVisaLetter (page_lower : String) (acc : ProdAcc) : ProdAcc :=
  if !acc.visa_letter && detect_category page_lower VISA_LETTER_KEYWORDS then
    { acc with
      visa_letter := true,
      visa_letter_price :=
        if acc.visa_letter_price = none then
          ["visa", "support letter", "invitation letter"].findSome?
            (extract_price_near_keyword page_lower)
        else acc.visa_letter_price }
  else acc

/-- One iteration of the page loop of `extract_products_v2`. -/
def productsPageStep (acc : ProdAcc) (html : String) : ProdAcc :=
  let page_lower := page_text html
  stepVisaLetter page_lower
    (stepHotel page_lower (stepRoundTrip page_lower (stepOneWay page_lower acc)))

/-- `extract_products_v2`: merge evidence across every fetched page into a
single record. -/
def extract_products_v2 (competitor_id : Nat)
    (html_pages : List (String × String)) (scrape_date scraped_at : String) :
    ProductV2Record :=
  let primary_url := match html_pages with
    | [] => ""
    | (u, _) :: _ => u
  let acc := html_pages.foldl (fun a p => productsPageStep a p.2) initProdAcc
  { competitor_id := competitor_id, scrape_date := scrape_date,
    scraped_at := scraped_at,
    one_way_offered := acc.one_way, one_way_price := acc.one_way_price,
    round_trip_offered := acc.round_trip,
    round_trip_price := acc.round_trip_price,
    hotel_offered := acc.hotel, hotel_price := acc.hotel_price,
    visa_letter_offered := acc.visa_letter,
    visa_letter_price := acc.visa_letter_price,
    source_url := primary_url }

theorem stepOneWay_one_way (pl : String) (acc : ProdAcc) :
    (stepOneWay pl acc).one_way =
      (acc.one_way || detect_category pl ONE_WAY_KEYWORDS) := by
  unfold stepOneWay
  cases ha : acc.one_way <;>
    cases hd : detect_category pl ONE_WAY_KEYWORDS <;> simp [ha, hd]

theorem stepRoundTrip_round_trip (pl : String) (acc : ProdAcc) :
    (stepRoundTrip pl acc).round_trip =
      (acc.round_trip || detect_category pl ROUND_TRIP_KEYWORDS) := by
  unfold stepRoundTrip
  cases ha : acc.round_trip <;>
    cases hd : detect_category pl ROUND_TRIP_KEYWORDS <;> simp [ha, hd]

theorem stepHotel_hotel (pl : String) (acc : ProdAcc) :
    (stepHotel pl acc).hotel =
      (acc.hotel || detect_category pl HOTEL_KEYWORDS) := by
  unfold stepHotel
  cases ha : acc.hotel <;>
    cases hd : detect_category pl HOTEL_KEYWORDS <;> simp [ha, hd]

theorem stepVisaLetter_visa_letter (pl : String) (acc : ProdAcc) :
    (stepVisaLetter pl acc).visa_letter =
      (acc.visa_letter || detect_category pl VISA_LETTER_KEYWORDS) := by
  unfold stepVisaLetter
  cases ha : acc.visa_letter <;>
    cases hd : detect_category pl VISA_LETTER_KEYWORDS <;> simp [ha, hd]

theorem stepOneWay_others (pl : String) (acc : ProdAcc) :
    (stepOneWay pl acc).round_trip = acc.round_trip ∧
    (stepOneWay pl acc).hotel = acc.hotel ∧
    (stepOneWay pl acc).visa_letter = acc.visa_letter := by
  unfold stepOneWay
  split <;> exact ⟨rfl, rfl, rfl⟩

theorem stepRoundTrip_others (pl : String) (acc : ProdAcc) :
    (stepRoundTrip pl acc).one_way = acc.one_way ∧
    (stepRoundTrip pl acc).hotel = acc.hotel ∧
    (stepRoundTrip pl acc).visa_letter = acc.visa_letter := by
  unfold stepRoundTrip
  split <;> exact ⟨rfl, rfl, rfl⟩

theorem stepHotel_others (pl : String) (acc : ProdAcc) :
    (stepHotel pl acc).one_way = acc.one_way ∧
    (stepHotel pl acc).round_trip = acc.round_trip ∧
    (stepHotel pl acc).visa_letter = acc.visa_letter := by
  unfold stepHotel
  split <;> exact ⟨rfl, rfl, rfl⟩

theorem stepVisaLetter_others (pl : String) (acc : ProdAcc) :
    (stepVisaLetter pl acc).one_way = acc.one_way ∧
    (stepVisaLetter pl acc).round_trip = acc.round_trip ∧
    (stepVisaLetter pl acc).hotel = acc.hotel := by
  unfold stepVisaLetter
  split <;> exact ⟨rfl, rfl, rfl⟩

theorem productsPageStep_one_way (acc : ProdAcc) (html : String) :
    (productsPageStep acc html).one_way =
      (acc.one_way || detect_category (page_text html) ONE_WAY_KEYWORDS) := by
  unfold productsPageStep
  rw [(stepVisaLetter_others _ _).1, (stepHotel_others _ _).1,
    (stepRoundTrip_others _ _).1, stepOneWay_one_way]

theorem productsPageStep_round_trip (acc : ProdAcc) (html : String) :
    (productsPageStep acc html).round_trip =
      (acc.round_trip ||
        detect_category (page_text html) ROUND_TRIP_KEYWORDS) := by
  unfold productsPageStep
  rw [(stepVisaLetter_others _ _).2.1, (stepHotel_others _ _).2.1,
    stepRoundTrip_round_trip, (stepOneWay_others _ _).1]

theorem productsPageStep_hotel (acc : ProdAcc) (html : String) :
    (productsPageStep acc html).hotel =
      (acc.hotel || detect_category (page_text html) HOTEL_KEYWORDS) := by
  unfold productsPageStep
  rw [(stepVisaLetter_others _ _).2.2, stepHotel_hotel,
    (stepRoundTrip_others _ _).2.1, (stepOneWay_others _ _).2.1]

theorem productsPageStep_visa_letter (acc : ProdAcc) (html : String) :
    (productsPageStep acc html).visa_letter =
      (acc.visa_letter ||
        detect_category (page_text html) VISA_LETTER_KEYWORDS) := by
  unfold productsPageStep
  rw [stepVisaLetter_visa_letter, (stepHotel_others _ _).2.2,
    (stepRoundTrip_others _ _).2.2, (stepOneWay_others _ _).2.2]

theorem productsFold_flag (pages : List (String × String)) (acc : ProdAcc)
    (proj : ProdAcc → Bool) (kws : List String)
    (hstep : ∀ a h, proj (productsPageStep a h) =
      (proj a || detect_category (page_text h) kws)) :
    proj (pages.foldl (fun a p => productsPageStep a p.2) acc) =
      (proj acc ||
        pages.any (fun p => detect_category (page_text p.2) kws)) := by
  induction pages generalizing acc with
  | nil => simp
  | cons p rest ih =>
    simp only [List.foldl_cons, List.any_cons]
    rw [ih, hstep, Bool.or_assoc]

/-- C7. For every list of fetched `(url, html)` pages, `extract_products_v2`
produces exactly one merged record, and each of the four categories is
marked offered iff at least one keyword of that category's keyword set
occurs in the lowercased visible text of at least one page (OR-merged
across every page). -/
theorem extract_products_v2_or_merge (competitor_id : Nat)
    (html_pages : List (String × String)) (scrape_date scraped_at : String) :
    ((extract_products_v2 competitor_id html_pages scrape_date
        scraped_at).one_way_offered = true ↔
      ∃ p ∈ html_pages, ∃ kw ∈ ONE_WAY_KEYWORDS,
        containsSub (page_text p.2) kw = true) ∧
    ((extract_products_v2 competitor_id html_pages scrape_date
        scraped_at).round_trip_offered = true ↔
      ∃ p ∈ html_pages, ∃ kw ∈ ROUND_TRIP_KEYWORDS,
        containsSub (page_text p.2) kw = true) ∧
    ((extract_products_v2 competitor_id html_pages scrape_date
        scraped_at).hotel_offered = true ↔
      ∃ p ∈ html_pages, ∃ kw ∈ HOTEL_KEYWORDS,
        containsSub (page_text p.2) kw = true) ∧
    ((extract_products_v2 competitor_id html_pages scrape_date
        scraped_at).visa_letter_offered = true ↔
      ∃ p ∈ html_pages, ∃ kw ∈ VISA_LETTER_KEYWORDS,
        containsSub (page_text p.2) kw = true) := by
  have hone := productsFold_flag html_pages initProdAcc ProdAcc.one_way
    ONE_WAY_KEYWORDS productsPageStep_one_way
  have hround := productsFold_flag html_pages initProdAcc ProdAcc.round_trip
    ROUND_TRIP_KEYWORDS productsPageStep_round_trip
  have hhotel := productsFold_flag html_pages initProdAcc ProdAcc.hotel
    HOTEL_KEYWORDS productsPageStep_hotel
  have hvisa := productsFold_flag html_pages initProdAcc ProdAcc.visa_letter
    VISA_LETTER_KEYWORDS productsPageStep_visa_letter
  refine ⟨?_, ?_, ?_, ?_⟩ <;>
    · first
      | (rw [show (extract_products_v2 competitor_id html_pages scrape_date
            scraped_at).one_way_offered =
            ProdAcc.one_way (html_pages.foldl
              (fun a p => productsPageStep a p.2) initProdAcc) from rfl,
          hone])
      | (rw [show (extract_products_v2 competitor_id html_pages scrape_date
            scraped_at).round_trip_offered =
            ProdAcc.round_trip (html_pages.foldl
              (fun a p => productsPageStep a p.2) initProdAcc) from rfl,
          hround])
      | (rw [show (extract_products_v2 competitor_id html_pages scrape_date
            scraped_at).hotel_offered =
            ProdAcc.hotel (html_pages.foldl
              (fun a p => productsPageStep a p.2) initProdAcc) from rfl,
          hhotel])
      | (rw [show (extract_products_v2 competitor_id html_pages scrape_date
            scraped_at).visa_letter_offered =
            ProdAcc.visa_letter (html_pages.foldl
              (fun a p => productsPageStep a p.2) initProdAcc) from rfl,
          hvisa])
      simp [initProdAcc, List.any_eq_true, detect_category,
        List.any_eq_true]

/-! ## C4: structured-payload pricing (`pricing._extract_from_next_data`)

The source locates the `__NEXT_DATA__` script tag, parses it with
`json.loads` and serializes it back with `json.dumps`; everything the claim
speaks about happens on that serialized blob (`text_blob`).  The embedding
therefore quantifies over the serialized blob directly. -/

/-- Render an amount with two decimals, `f"{amt:.2f}"`: exact on the
cents representation. -/
def fmtAmount2 (n : Amount) : String :=
  toString (n / 100) ++ "." ++ (if n % 100 < 10 then "0" else "") ++
    toString (n % 100)

/-- The match loop of `_extract_from_next_data`: keep `(currency, amount)`
pairs whose amount was not seen before (dedup by value, first occurrence
kept). -/
def dedupMatchesGo : List (Char × String) → List Amount → List (String × Amount)
  | [], _ => []
  | m :: rest, seen =>
    match safe_float m.2 with
    | none => dedupMatchesGo rest seen
    | some amount =>
      let currency := canonical_currency (String.mk [m.1])
      if amount ∈ seen then dedupMatchesGo rest seen
      else (currency, amount) :: dedupMatchesGo rest (amount :: seen)

/-- `min(matches, key=lambda x: x[1])`: the first pair with the smallest
amount. -/
def minByAmount (m0 : String × Amount) (rest : List (String × Amount)) : String × Amount :=
  rest.foldl (fun acc m => if m.2 < acc.2 then m else acc) m0

/-- `_extract_from_next_data`, from the serialized JSON blob on: the main
price is the smallest distinct amount, every other distinct amount becomes
a generic `Addon $X.XX` add-on. -/
def extract_from_next_data_blob (text_blob : String) :
    Option (Amount × List AddonItem × String) :=
  match dedupMatchesGo (priceMatches text_blob) [] with
  | [] => none
  | m0 :: rest =>
    let best := minByAmount m0 rest
    let main_price := best.2
    let currency := best.1
    let addons := ((m0 :: rest).filter (fun m => m.2 ≠ main_price)).map
      (fun m => AddonItem.mk ("Addon $" ++ fmtAmount2 m.2) m.2)
    some (main_price, addons, currency)

/-- The distinct amounts of a blob, first occurrence kept — the spec's
"amounts deduplicated by value". -/
def firstDedup : List Amount → List Amount → List Amount
  | [], _ => []
  | a :: rest, seen =>
    if a ∈ seen then firstDedup rest seen
    else a :: firstDedup rest (a :: seen)

/-- All distinct currency-adjacent amounts of a serialized blob. -/
def distinctAmounts (blob : String) : List Amount :=
  firstDedup ((priceMatches blob).filterMap (fun m => safe_float m.2)) []

theorem dedupMatchesGo_snd (ms : List (Char × String)) (seen : List Amount) :
    (dedupMatchesGo ms seen).map Prod.snd =
      firstDedup (ms.filterMap (fun m => safe_float m.2)) seen := by
  induction ms generalizing seen with
  | nil => rfl
  | cons m rest ih =>
    simp only [dedupMatchesGo, List.filterMap_cons]
    cases hf : safe_float m.2 with
    | none => exact ih seen
    | some amount =>
      simp only [firstDedup]
      by_cases hs : amount ∈ seen
      · simp [hs, ih]
      · simp [hs, ih]

theorem minByAmount_spec (rest : List (String × Amount)) :
    ∀ m0 : String × Amount, minByAmount m0 rest ∈ m0 :: rest ∧
      ∀ x ∈ m0 :: rest, (minByAmount m0 rest).2 ≤ x.2 := by
  induction rest with
  | nil =>
    intro m0
    refine ⟨List.mem_singleton.mpr rfl, ?_⟩
    intro x hx
    rw [List.mem_singleton] at hx
    rw [hx]
    exact le_refl (minByAmount m0 []).2
  | cons a t ih =>
    intro m0
    have hstep : minByAmount m0 (a :: t) =
        minByAmount (if a.2 < m0.2 then a else m0) t := rfl
    by_cases hlt : a.2 < m0.2
    · have h := ih a
      rw [hstep, if_pos hlt]
      refine ⟨?_, ?_⟩
      · rcases List.mem_cons.mp h.1 with h1 | h1
        · rw [h1]; exact List.mem_cons_of_mem _ (List.mem_cons_self _ _)
        · exact List.mem_cons_of_mem _ (List.mem_cons_of_mem _ h1)
      · intro x hx
        rcases List.mem_cons.mp hx with h2 | hx
        · rw [h2]
          exact le_of_lt (lt_of_le_of_lt (h.2 a (List.mem_cons_self _ _)) hlt)
        · exact h.2 x hx
    · have h := ih m0
      rw [hstep, if_neg hlt]
      refine ⟨?_, ?_⟩
      · rcases List.mem_cons.mp h.1 with h1 | h1
        · rw [h1]; exact List.mem_cons_self _ _
        · exact List.mem_cons_of_mem _ (List.mem_cons_of_mem _ h1)
      · intro x hx
        rcases List.mem_cons.mp hx with h2 | hx
        · rw [h2]; exact h.2 m0 (List.mem_cons_self _ _)
        · rcases List.mem_cons.mp hx with h2 | hx
          · rw [h2]
            exact le_trans (h.2 m0 (List.mem_cons_self _ _)) (not_lt.mp hlt)
          · exact h.2 x (List.mem_cons_of_mem _ hx)

theorem addons_map_price (ms : List (String × Amount)) (main : Amount) :
    ((ms.filter (fun m => m.2 ≠ main)).map
      (fun m => AddonItem.mk ("Addon $" ++ fmtAmount2 m.2) m.2)).map
        AddonItem.price =
      (ms.map Prod.snd).filter (fun x => x ≠ main) := by
  induction ms with
  | nil => rfl
  | cons a t ih =>
    simp only [ne_eq, decide_not, List.map_map] at ih ⊢
    by_cases h : a.2 = main
    · simp [List.filter_cons, h, ih]
    · simp [List.filter_cons, h, ih]

/-- C4. Whenever the serialized framework state blob contains at least one
currency-adjacent amount, the structured-payload strategy returns the
minimum of the distinct amounts (dedup by value) as the main price, and
every other distinct amount becomes a generic add-on labeled by its
two-decimal value. -/
theorem next_data_min_distinct (blob : String)
    (h : distinctAmounts blob ≠ []) :
    ∃ main addons currency,
      extract_from_next_data_blob blob = some (main, addons, currency) ∧
      main ∈ distinctAmounts blob ∧
      (∀ x ∈ distinctAmounts blob, main ≤ x) ∧
      addons.map AddonItem.price = (distinctAmounts blob).filter
        (fun x => x ≠ main) ∧
      ∀ a ∈ addons, a.name = "Addon $" ++ fmtAmount2 a.price := by
  have hsnd := dedupMatchesGo_snd (priceMatches blob) []
  cases hms : dedupMatchesGo (priceMatches blob) [] with
  | nil =>
    exfalso
    apply h
    rw [distinctAmounts, ← hsnd, hms]
    rfl
  | cons m0 rest =>
    have hda : distinctAmounts blob = (m0 :: rest).map Prod.snd := by
      rw [distinctAmounts, ← hsnd, hms]
    have hmin := minByAmount_spec rest m0
    refine ⟨(minByAmount m0 rest).2,
      ((m0 :: rest).filter (fun m => m.2 ≠ (minByAmount m0 rest).2)).map
        (fun m => AddonItem.mk ("Addon $" ++ fmtAmount2 m.2) m.2),
      (minByAmount m0 rest).1, ?_, ?_, ?_, ?_, ?_⟩
    · simp only [extract_from_next_data_blob, hms]
    · rw [hda]
      exact List.mem_map_of_mem Prod.snd hmin.1
    · intro x hx
      rw [hda] at hx
      obtain ⟨y, hy, rfl⟩ := List.mem_map.mp hx
      exact hmin.2 y hy
    · rw [hda]
      exact addons_map_price (m0 :: rest) (minByAmount m0 rest).2
    · intro a ha
      obtain ⟨y, _, rfl⟩ := List.mem_map.mp ha
      rfl

/-- Witness for C4 on a concrete serialized blob holding amounts 16, 14 and
a repeated 16: the main price is 14 and the lone add-on is the distinct 16. -/
theorem next_data_min_distinct_witness :
    distinctAmounts "\"hero\": \"$16\", \"sale\": \"from $14\", \"alt\": \"$16\"" ≠ [] ∧
    extract_from_next_data_blob
        "\"hero\": \"$16\", \"sale\": \"from $14\", \"alt\": \"$16\"" =
      some (1400, [AddonItem.mk "Addon $16.00" 1600], "USD") ∧
    ∃ main addons currency,
      extract_from_next_data_blob
          "\"hero\": \"$16\", \"sale\": \"from $14\", \"alt\": \"$16\"" =
        some (main, addons, currency) ∧
      main ∈ distinctAmounts
          "\"hero\": \"$16\", \"sale\": \"from $14\", \"alt\": \"$16\"" ∧
      (∀ x ∈ distinctAmounts
          "\"hero\": \"$16\", \"sale\": \"from $14\", \"alt\": \"$16\"",
        main ≤ x) ∧
      addons.map AddonItem.price =
        (distinctAmounts
          "\"hero\": \"$16\", \"sale\": \"from $14\", \"alt\": \"$16\"").filter
          (fun x => x ≠ main) ∧
      ∀ a ∈ addons, a.name = "Addon $" ++ fmtAmount2 a.price := by
  refine ⟨by decide, by decide, ?_⟩
  exact next_data_min_distinct
    "\"hero\": \"$16\", \"sale\": \"from $14\", \"alt\": \"$16\"" (by decide)

/-! ## C5: the free-text pricing extractor (`pricing.extract_pricing_v2`)

`soup.find_all(string=PRICE_PATTERN)` yields the text nodes containing a
price match; the embedding quantifies over that list of text nodes. -/

/-- `pricing._NOISE_INDICATORS`. -/
def NOISE_INDICATORS : List String :=
  ["self.__next_f", "<![CDATA[", "gform.", "jQuery(", "__next_f",
   "window.__NEXT", "function("]

/-- `pricing._MAX_TEXT_LENGTH`. -/
def MAX_TEXT_LENGTH : Nat := 300

/-- `pricing._is_noise_text`: over-long text or text containing a known
script/hydration-marker substring. -/
def is_noise_text (text : String) : Bool :=
  decide (text.length > MAX_TEXT_LENGTH) ||
    NOISE_INDICATORS.any (fun indicator => containsSub text indicator)

/-- `_ADDON_ONLY_PATTERN.search(text)`: the anchored pattern
`^\s*\(\+\s*[$€£]?\d+(?:[.,]\d{1,2})?` matches at the start of the text. -/
def addon_only_at_start (text : String) : Bool :=
  match text.data.dropWhile pySpace with
  | '(' :: '+' :: rest =>
    let rest2 := rest.dropWhile pySpace
    let rest3 := match rest2 with
      | c :: r => if currencySym c then r else rest2
      | [] => rest2
    match rest3 with
    | c :: _ => c.isDigit
    | [] => false
  | _ => false

/-- The collapsed, noise-filtered price-bearing text nodes
(`price_texts` in `extract_pricing_v2`). -/
def priceTexts (nodes : List String) : List String :=
  nodes.filterMap (fun node =>
    if (priceSearch node).isSome then
      let raw := collapseWs node
      if is_noise_text raw then none else some raw
    else none)

/-- The main-price selection loop of `extract_pricing_v2`; the state is
`(best_price, best_currency, best_text)`.  Add-on-delta texts (matching
`_ADDON_ONLY_PATTERN` or containing `"(+"`) are skipped; among the rest
the smallest amount wins, earlier texts win ties. -/
def bestPriceFold : List String → Option (Amount × String × String) →
    Option (Amount × String × String)
  | [], best => best
  | text :: rest, best =>
    if addon_only_at_start text || containsSub text "(+" then
      bestPriceFold rest best
    else
      match priceSearch text with
      | none => bestPriceFold rest best
      | some m =>
        match safe_float m.2 with
        | none => bestPriceFold rest best
        | some amount =>
          let currency := canonical_currency (String.mk [m.1])
          match best with
          | none => bestPriceFold rest (some (amount, currency, text))
          | some b =>
            if amount < b.1 then bestPriceFold rest (some (amount, currency, text))
            else bestPriceFold rest best

/-- One `ADDON_INLINE_PATTERN` tail: `\s*\(\+\s*[$€£]?(amount)` at the head
of the stream; returns the amount characters and the rest. -/
def parseAddonTail (cs : List Char) : Option (List Char × List Char) :=
  match cs.dropWhile pySpace with
  | '(' :: '+' :: cs2 =>
    let cs3 := cs2.dropWhile pySpace
    let cs4 := match cs3 with
      | c :: r => if currencySym c then r else cs3
      | [] => cs3
    parseAmountGroup cs4
  | _ => none

/-- Grow the lazy name group `[^(+]+?` one character at a time until the
add-on tail parses. -/
def tryAddonName : Nat → List Char → List Char →
    Option (List Char × List Char × List Char)
  | 0, _, _ => none
  | fuel + 1, nameRev, cs =>
    match cs with
    | [] => none
    | c :: rest =>
      if c = '(' || c = '+' then none
      else
        match parseAddonTail rest with
        | some (amt, after) => some ((c :: nameRev).reverse, amt, after)
        | none => tryAddonName fuel (c :: nameRev) rest

/-- `ADDON_INLINE_PATTERN.finditer`: non-overlapping matches, left to
right. -/
def addonFinditer : Nat → List Char → List (List Char × List Char)
  | 0, _ => []
  | _ + 1, [] => []
  | fuel + 1, c :: rest =>
    match tryAddonName (c :: rest).length [] (c :: rest) with
    | some (name, amt, after) => (name, amt) :: addonFinditer fuel after
    | none => addonFinditer fuel rest

/-- Python `str.rstrip("(")`. -/
def rstripParen (s : String) : String :=
  String.mk ((s.data.reverse.dropWhile (fun c => c = '(')).reverse)

/-- `pricing._extract_addons_from_text`. -/
def extract_addons_from_text (text : String) : List AddonItem :=
  (addonFinditer text.length text.data).filterMap (fun m =>
    let name := pyStrip (rstripParen (pyStrip (String.mk m.1)))
    match safe_float (String.mk m.2) with
    | some price =>
      if name ≠ "" && price > 0 then some (AddonItem.mk name price) else none
    | none => none)

/-- The add-on dedup loop of `extract_pricing_v2` (unique lowercased
names, first occurrence kept). -/
def dedupAddons : List AddonItem → List String → List AddonItem
  | [], _ => []
  | a :: rest, seen =>
    let key := toLowerStr a.name
    if key ∈ seen then dedupAddons rest seen
    else a :: dedupAddons rest (key :: seen)

/-- `extract_pricing_v2`, over the price-bearing text nodes of the page. -/
def extract_pricing_v2 (competitor_id : Nat) (nodes : List String)
    (source_url scrape_date scraped_at : String) : Option PriceV2Record :=
  let price_texts := priceTexts nodes
  if price_texts = [] then none
  else
    match bestPriceFold price_texts none with
    | none => none
    | some best =>
      let addons := dedupAddons
        ((price_texts.map extract_addons_from_text).flatten) []
      some { competitor_id := competitor_id, scrape_date := scrape_date,
             scraped_at := scraped_at, main_price := some best.1,
             currency := best.2.1, addons := addons,
             source_url := source_url }

theorem bestPriceFold_source (l : List String)
    (best : Option (Amount × String × String)) (v : Amount × String × String)
    (h : bestPriceFold l best = some v) :
    best = some v ∨
      (v.2.2 ∈ l ∧ ∃ m, priceSearch v.2.2 = some m ∧
        safe_float m.2 = some v.1) := by
  induction l generalizing best with
  | nil => exact Or.inl h
  | cons text rest ih =>
    rw [bestPriceFold] at h
    by_cases hskip : (addon_only_at_start text || containsSub text "(+") = true
    · rw [if_pos hskip] at h
      rcases ih best h with h1 | h1
      · exact Or.inl h1
      · exact Or.inr ⟨List.mem_cons_of_mem _ h1.1, h1.2⟩
    · rw [if_neg hskip] at h
      cases hm : priceSearch text with
      | none =>
        simp only [hm] at h
        rcases ih best h with h1 | h1
        · exact Or.inl h1
        · exact Or.inr ⟨List.mem_cons_of_mem _ h1.1, h1.2⟩
      | some m =>
        simp only [hm] at h
        cases hf : safe_float m.2 with
        | none =>
          simp only [hf] at h
          rcases ih best h with h1 | h1
          · exact Or.inl h1
          · exact Or.inr ⟨List.mem_cons_of_mem _ h1.1, h1.2⟩
        | some amount =>
          simp only [hf] at h
          have hnewcase : ∀ b', b' = some (amount,
              canonical_currency (String.mk [m.1]), text) →
              bestPriceFold rest b' = some v →
              best = some v ∨ (v.2.2 ∈ text :: rest ∧ ∃ m',
                priceSearch v.2.2 = some m' ∧ safe_float m'.2 = some v.1) := by
            intro b' hb' hfold
            rcases ih b' hfold with h1 | h1
            · rw [hb'] at h1
              have hv : v = (amount, canonical_currency (String.mk [m.1]),
                  text) := by
                exact (Option.some.injEq _ _).mp h1.symm
              refine Or.inr ⟨?_, m, ?_, ?_⟩
              · rw [hv]; exact List.mem_cons_self _ _
              · rw [hv]; exact hm
              · rw [hv]; exact hf
            · exact Or.inr ⟨List.mem_cons_of_mem _ h1.1, h1.2⟩
          cases hb : best with
          | none =>
            simp only [hb] at h
            exact (hnewcase _ rfl h).imp (fun h1 => hb ▸ h1) id
          | some b =>
            simp only [hb] at h
            by_cases hlt : amount < b.1
            · rw [if_pos hlt] at h
              rcases hnewcase _ rfl h with h1 | h1
              · exact Or.inl (hb ▸ h1)
              · exact Or.inr h1
            · rw [if_neg hlt] at h
              rcases ih _ h with h1 | h1
              · exact Or.inl (hb ▸ h1)
              · exact Or.inr ⟨List.mem_cons_of_mem _ h1.1, h1.2⟩

theorem priceTexts_not_noise (nodes : List String) (t : String)
    (ht : t ∈ priceTexts nodes) : is_noise_text t = false := by
  rw [priceTexts, List.mem_filterMap] at ht
  obtain ⟨node, _, hf⟩ := ht
  by_cases hs : (priceSearch node).isSome
  · rw [if_pos hs] at hf
    by_cases hn : is_noise_text (collapseWs node) = true
    · rw [if_pos hn] at hf
      exact absurd hf (by simp)
    · rw [if_neg hn] at hf
      have : collapseWs node = t := by
        exact (Option.some.injEq _ _).mp hf
      rw [← this]
      exact Bool.not_eq_true _ ▸ hn
  · rw [if_neg hs] at hf
    exact absurd hf (by simp)

/-- C5. A text node classified as script-noise is never the source of the
main price: whenever the free-text extractor returns a record, the chosen
best text is a collapsed, non-noise price text among the survivors, and
the main price is the first price amount of that text. -/
theorem noise_never_price_source (competitor_id : Nat) (nodes : List String)
    (source_url scrape_date scraped_at : String) (r : PriceV2Record)
    (h : extract_pricing_v2 competitor_id nodes source_url scrape_date
      scraped_at = some r) :
    ∃ t, t ∈ priceTexts nodes ∧ is_noise_text t = false ∧
      ∃ m, priceSearch t = some m ∧ safe_float m.2 = r.main_price := by
  rw [extract_pricing_v2] at h
  by_cases hnil : priceTexts nodes = []
  · rw [if_pos hnil] at h
    exact absurd h (by simp)
  · rw [if_neg hnil] at h
    cases hfold : bestPriceFold (priceTexts nodes) none with
    | none =>
      rw [hfold] at h
      exact absurd h (by simp)
    | some best =>
      rw [hfold] at h
      rcases bestPriceFold_source _ _ _ hfold with h1 | h1
      · exact absurd h1 (by simp)
      · refine ⟨best.2.2, h1.1, priceTexts_not_noise nodes _ h1.1, ?_⟩
        obtain ⟨m, hm, hf⟩ := h1.2
        refine ⟨m, hm, ?_⟩
        rw [hf]
        have hr : r.main_price = some best.1 := by
          have := (Option.some.injEq _ _).mp h
          rw [← this]
        rw [hr]

/-- Witness for C5 at the spec's own example: the noise node
`self.__next_f.push([1,"$16"])` is skipped and the clean node
`from only $14` supplies the main price `14.0`. -/
theorem noise_never_price_source_witness :
    (extract_pricing_v2 7 ["self.__next_f.push([1,\"$16\"])", "from only $14"]
        "https://example.com" "2026-10-12" "t").map
        (fun r => r.main_price) = some (some 1400) ∧
    ∃ t, t ∈ priceTexts ["self.__next_f.push([1,\"$16\"])", "from only $14"] ∧
      is_noise_text t = false ∧
      ∃ m, priceSearch t = some m ∧
        safe_float m.2 =
          (PriceV2Record.mk 7 "2026-10-12" "t" (some 1400) "USD" []
            "https://example.com").main_price := by
  refine ⟨by decide, ?_⟩
  exact noise_never_price_source 7
    ["self.__next_f.push([1,\"$16\"])", "from only $14"]
    "https://example.com" "2026-10-12" "t"
    (PriceV2Record.mk 7 "2026-10-12" "t" (some 1400) "USD" []
      "https://example.com") (by decide)

/-! ## C8 / C10: the A/B-framework detector (`src/scrapers/ab_tests.py`)

`detect_frameworks` builds one searchable blob from the raw markup, the
inline script texts and the script `src` URLs, then runs a case-insensitive
literal search per signature.  The embedding quantifies over the searchable
blob. -/

/-- First `n` characters of a string (Python slicing `s[:n]`). -/
def takeChars (s : String) (n : Nat) : String :=
  String.mk (s.data.take n)

/-- Index of the first case-insensitive occurrence of `pat` in `s`
(`re.search(re.escape(pat), s, re.IGNORECASE)`), in characters. -/
def findCI (s pat : String) : Option Nat :=
  findSubIdx (toLowerStr s).data (toLowerStr pat).data

/-- `ab_tests.AB_FRAMEWORK_SIGNATURES`, in source order. -/
def AB_FRAMEWORK_SIGNATURES : List (String × List String) :=
  [("optimizely", ["optimizely", "cdn.optimizely.com"]),
   ("vwo", ["visualwebsiteoptimizer", "dev.visualwebsiteoptimizer", "vwo"]),
   ("google_optimize", ["googleoptimize", "optimize.js", "gtm-optimize"]),
   ("launchdarkly", ["launchdarkly", "ldclient", "app.launchdarkly.com"]),
   ("adobe_target", ["adobetarget", "at.js", "tt.omtrdc.net"]),
   ("split", ["cdn.split.io", "splitio", "split.io"]),
   ("convert", ["convert.com", "convertglobal",
     "cdn-4.convertexperiments.com"])]

/-- `ab_tests._find_match_context`: a ±40-character window around the first
case-insensitive occurrence, whitespace-collapsed; the bare pattern when
the search fails. -/
def find_match_context (html pattern : String) : String :=
  match findCI html pattern with
  | none => pattern
  | some start =>
    collapseWs (String.mk
      (sliceChars html.data (start - 40) (start + pattern.length + 40)))

/-- The per-tool detection loop of `detect_frameworks`, over an arbitrary
signature table: the inner `for signature ... break` is the first signature
that matches. -/
def detectTable (tbl : List (String × List String)) (searchable : String) :
    List (String × String) :=
  tbl.filterMap (fun ts =>
    (ts.2.find? (fun signature => (findCI searchable signature).isSome)).map
      (fun signature =>
        (ts.1, takeChars (find_match_context searchable signature) 300)))

/-- `ab_tests.detect_frameworks`, from the searchable blob on. -/
def detect_frameworks (searchable : String) : List (String × String) :=
  detectTable AB_FRAMEWORK_SIGNATURES searchable

theorem detectTable_mem {tbl : List (String × List String)} {s : String}
    {d : String × String} (h : d ∈ detectTable tbl s) :
    ∃ sigs sig, (d.1, sigs) ∈ tbl ∧ sig ∈ sigs ∧
      (findCI s sig).isSome = true ∧
      d.2 = takeChars (find_match_context s sig) 300 := by
  rw [detectTable, List.mem_filterMap] at h
  obtain ⟨ts, hts, hmap⟩ := h
  cases hfind : ts.2.find? (fun signature => (findCI s signature).isSome) with
  | none => rw [hfind] at hmap; simp at hmap
  | some sig =>
    rw [hfind] at hmap
    simp only [Option.map_some'] at hmap
    have hd : d = (ts.1, takeChars (find_match_context s sig) 300) :=
      ((Option.some.injEq _ _).mp hmap).symm
    refine ⟨ts.2, sig, ?_, ?_, ?_, ?_⟩
    · rw [hd]; exact hts
    · exact List.mem_of_find?_eq_some hfind
    · simpa using List.find?_some hfind
    · rw [hd]

theorem detectTable_exists {tbl : List (String × List String)} {s : String}
    {tool : String} {sigs : List String} (htbl : (tool, sigs) ∈ tbl)
    (h : ∃ sig ∈ sigs, (findCI s sig).isSome = true) :
    ∃ ev, (tool, ev) ∈ detectTable tbl s := by
  have hfind : (sigs.find?
      (fun signature => (findCI s signature).isSome)).isSome := by
    rw [List.find?_isSome]
    obtain ⟨sig, hsig, hp⟩ := h
    exact ⟨sig, hsig, hp⟩
  cases hf : sigs.find? (fun signature => (findCI s signature).isSome) with
  | none => rw [hf] at hfind; exact absurd hfind (by simp)
  | some sig =>
    refine ⟨takeChars (find_match_context s sig) 300, ?_⟩
    rw [detectTable, List.mem_filterMap]
    exact ⟨(tool, sigs), htbl, by rw [hf]; rfl⟩

theorem nodup_key_unique {tbl : List (String × List String)}
    (h : (tbl.map Prod.fst).Nodup) {k : String} {v v' : List String}
    (h1 : (k, v) ∈ tbl) (h2 : (k, v') ∈ tbl) : v = v' := by
  induction tbl with
  | nil => exact absurd h1 (List.not_mem_nil _)
  | cons a rest ih =>
    rw [List.map_cons, List.nodup_cons] at h
    rcases List.mem_cons.mp h1 with e1 | m1
    · rcases List.mem_cons.mp h2 with e2 | m2
      · exact congrArg Prod.snd (e1.trans e2.symm)
      · exfalso
        apply h.1
        have hk : k ∈ rest.map Prod.fst := List.mem_map.mpr ⟨(k, v'), m2, rfl⟩
        have ha : a.1 = k := (congrArg Prod.fst e1).symm
        rw [ha]
        exact hk
    · rcases List.mem_cons.mp h2 with e2 | m2
      · exfalso
        apply h.1
        have hk : k ∈ rest.map Prod.fst := List.mem_map.mpr ⟨(k, v), m1, rfl⟩
        have ha : a.1 = k := (congrArg Prod.fst e2).symm
        rw [ha]
        exact hk
      · exact ih h.2 m1 m2

theorem detectTable_once {tbl : List (String × List String)} {s : String}
    (h : (tbl.map Prod.fst).Nodup) (tool : String) :
    ((detectTable tbl s).filter (fun d => d.1 = tool)).length ≤ 1 := by
  induction tbl with
  | nil => simp [detectTable]
  | cons a rest ih =>
    rw [List.map_cons, List.nodup_cons] at h
    have hrestkeys : ∀ d : String × String, d ∈ detectTable rest s →
        d.1 ∈ rest.map Prod.fst := by
      intro d hd
      obtain ⟨sigs, _, hmem, _⟩ := detectTable_mem hd
      exact List.mem_map.mpr ⟨(d.1, sigs), hmem, rfl⟩
    cases hfind : (a.2.find?
        (fun signature => (findCI s signature).isSome)).map
        (fun signature =>
          (a.1, takeChars (find_match_context s signature) 300)) with
    | none =>
      have hstep : detectTable (a :: rest) s = detectTable rest s := by
        simp only [detectTable, List.filterMap_cons, hfind]
      rw [hstep]
      exact ih h.2
    | some d0 =>
      have hstep : detectTable (a :: rest) s = d0 :: detectTable rest s := by
        simp only [detectTable, List.filterMap_cons, hfind]
      have hda : d0.1 = a.1 := by
        cases hma : a.2.find?
            (fun signature => (findCI s signature).isSome) with
        | none => rw [hma] at hfind; simp at hfind
        | some sig =>
          rw [hma] at hfind
          simp only [Option.map_some'] at hfind
          have he := (Option.some.injEq _ _).mp hfind
          rw [← he]
      rw [hstep, List.filter_cons]
      by_cases htool : d0.1 = tool
      · rw [if_pos (by simp [htool])]
        rw [List.length_cons]
        have hnil : (detectTable rest s).filter
            (fun d => decide (d.1 = tool)) = [] := by
          rw [List.filter_eq_nil_iff]
          intro d hd hcon
          apply h.1
          have hdt : d.1 = tool := of_decide_eq_true hcon
          rw [← hda, htool, ← hdt]
          exact hrestkeys d hd
        rw [hnil]
        exact Nat.le_refl 1
      · rw [if_neg (by simp [htool])]
        exact ih h.2

/-- C8. For every searchable blob and every tool of the signature table, a
detection for that tool is reported iff at least one of its literal
signature substrings occurs case-insensitively in the blob; at most one
detection is recorded per tool; and every detection's evidence excerpt is
at most 300 characters long. -/
theorem detect_frameworks_spec (searchable : String) (tool : String)
    (sigs : List String) (htbl : (tool, sigs) ∈ AB_FRAMEWORK_SIGNATURES) :
    ((∃ ev, (tool, ev) ∈ detect_frameworks searchable) ↔
      ∃ sig ∈ sigs, (findCI searchable sig).isSome = true) ∧
    ((detect_frameworks searchable).filter
      (fun d => d.1 = tool)).length ≤ 1 ∧
    (∀ d ∈ detect_frameworks searchable, d.2.length ≤ 300) := by
  have hnodup : (AB_FRAMEWORK_SIGNATURES.map Prod.fst).Nodup := by decide
  refine ⟨⟨?_, ?_⟩, ?_, ?_⟩
  · intro ⟨ev, hev⟩
    obtain ⟨sigs', sig, hmem, hsig, hsome, _⟩ := detectTable_mem hev
    have : sigs' = sigs := nodup_key_unique hnodup hmem htbl
    exact ⟨sig, this ▸ hsig, hsome⟩
  · intro h
    exact detectTable_exists htbl h
  · exact detectTable_once hnodup tool
  · intro d hd
    obtain ⟨_, sig, _, _, _, hev⟩ := detectTable_mem hd
    rw [hev]
    calc (takeChars (find_match_context searchable sig) 300).length
        = ((find_match_context searchable sig).data.take 300).length := rfl
      _ ≤ 300 := by
          rw [List.length_take]
          exact Nat.min_le_left _ _

/-- Witness for C8 at a concrete blob containing an Optimizely CDN URL. -/
theorem detect_frameworks_spec_witness :
    ("optimizely", ["optimizely", "cdn.optimizely.com"]) ∈
      AB_FRAMEWORK_SIGNATURES ∧
    (((∃ ev, ("optimizely", ev) ∈ detect_frameworks
        "<script src=https://cdn.Optimizely.com/js/1.js></script>") ↔
      ∃ sig ∈ ["optimizely", "cdn.optimizely.com"],
        (findCI "<script src=https://cdn.Optimizely.com/js/1.js></script>"
          sig).isSome = true) ∧
    ((detect_frameworks
        "<script src=https://cdn.Optimizely.com/js/1.js></script>").filter
      (fun d => d.1 = "optimizely")).length ≤ 1 ∧
    (∀ d ∈ detect_frameworks
        "<script src=https://cdn.Optimizely.com/js/1.js></script>",
      d.2.length ≤ 300)) := by
  refine ⟨by decide, ?_⟩
  exact detect_frameworks_spec
    "<script src=https://cdn.Optimizely.com/js/1.js></script>"
    "optimizely" ["optimizely", "cdn.optimizely.com"] (by decide)

/-- C10. The fallback branch of `_find_match_context` (returning the bare
signature) is unreachable from `detect_frameworks`: every recorded
detection's evidence comes from the successful-search branch, i.e. it is
the whitespace-collapsed ±40-character window of the blob around the first
case-insensitive occurrence of the signature, truncated to 300 characters. -/
theorem find_match_context_fallback_unreachable (searchable : String)
    (d : String × String) (hd : d ∈ detect_frameworks searchable) :
    ∃ sigs sig i, (d.1, sigs) ∈ AB_FRAMEWORK_SIGNATURES ∧ sig ∈ sigs ∧
      findCI searchable sig = some i ∧
      find_match_context searchable sig = collapseWs (String.mk
        (sliceChars searchable.data (i - 40) (i + sig.length + 40))) ∧
      d.2 = takeChars (find_match_context searchable sig) 300 := by
  obtain ⟨sigs, sig, hmem, hsig, hsome, hev⟩ := detectTable_mem hd
  cases hf : findCI searchable sig with
  | none => rw [hf] at hsome; exact absurd hsome (by simp)
  | some i =>
    refine ⟨sigs, sig, i, hmem, hsig, hf, ?_, hev⟩
    rw [find_match_context, hf]

/-- Witness for C10 at a concrete blob: the sole detection's evidence is
the collapsed window, not the bare signature. -/
theorem find_match_context_fallback_unreachable_witness :
    ("optimizely", "<script src=x.js></script> Optimizely rocks") ∈
      detect_frameworks "<script src=x.js></script> Optimizely rocks" ∧
    ∃ sigs sig i,
      (("optimizely", "<script src=x.js></script> Optimizely rocks").1, sigs)
        ∈ AB_FRAMEWORK_SIGNATURES ∧ sig ∈ sigs ∧
      findCI "<script src=x.js></script> Optimizely rocks" sig = some i ∧
      find_match_context "<script src=x.js></script> Optimizely rocks" sig =
        collapseWs (String.mk (sliceChars
          "<script src=x.js></script> Optimizely rocks".data (i - 40)
          (i + sig.length + 40))) ∧
      ("optimizely", "<script src=x.js></script> Optimizely rocks").2 =
        takeChars (find_match_context
          "<script src=x.js></script> Optimizely rocks" sig) 300 := by
  refine ⟨by decide, ?_⟩
  exact find_match_context_fallback_unreachable
    "<script src=x.js></script> Optimizely rocks"
    ("optimizely", "<script src=x.js></script> Optimizely rocks") (by decide)

/-! ## C6: the review extractors' recursive JSON searches

`reviews_sentiment._search` (inside `_extract_reviews_from_next_data`)
carries an explicit depth counter and stops beyond depth 15;
`reviews_trustpilot._extract_nextjs_data`'s `_search` recurses with no
depth bound.  JSON numerals are modelled by `ℤ` (the rating/count fields
relevant here are integral; the numeric coercion helpers are modelled on
their integral core). -/

/-- A parsed JSON value (`json.loads` output). -/
inductive Json where
  | null : Json
  | bool (b : Bool) : Json
  | num (n : Int) : Json
  | str (s : String) : Json
  | arr (items : List Json) : Json
  | obj (fields : List (String × Json)) : Json
deriving Repr

/-- Python truthiness of a JSON value. -/
def jsonTruthy : Json → Bool
  | .null => false
  | .bool b => b
  | .num n => n ≠ 0
  | .str s => s ≠ ""
  | .arr items => !items.isEmpty
  | .obj fields => !fields.isEmpty

/-- `dict.get(key)`: the value of the first matching key, if any. -/
def jsonGet (fields : List (String × Json)) (key : String) : Option Json :=
  (fields.find? (fun kv => kv.1 = key)).map Prod.snd

/-- Python `x or y` over optional JSON values. -/
def orElseTruthy (a b : Option Json) : Option Json :=
  match a with
  | some v => if jsonTruthy v then some v else b
  | none => b

/-- The per-review text extraction of `reviews_sentiment._search`:
`rev.get("text") or rev.get("content") or rev.get("body")`, kept when it
is a truthy string longer than 10 characters, stripped. -/
def reviewTextOf (rev : Json) : Option String :=
  match rev with
  | .obj fields =>
    match orElseTruthy (jsonGet fields "text")
      (orElseTruthy (jsonGet fields "content") (jsonGet fields "body")) with
    | some (.str s) =>
      if jsonTruthy (.str s) && decide (s.length > 10) then some (pyStrip s)
      else none
    | _ => none
  | _ => none

/-- The `"reviews"` block of `reviews_sentiment._search`. -/
def jsonReviewTexts (fields : List (String × Json)) : List String :=
  match jsonGet fields "reviews" with
  | some (.arr revs) => revs.filterMap reviewTextOf
  | _ => []

mutual

/-- `reviews_sentiment._search`: depth-bounded (`if depth > 15: return`)
recursive search collecting review texts. -/
def sentSearch : Json → Nat → List String
  | j, depth =>
    if depth > 15 then []
    else
      match j with
      | .obj fields => jsonReviewTexts fields ++ sentSearchFields fields depth
      | .arr items => sentSearchItems items depth
      | _ => []

/-- The `for v in obj.values(): _search(v, depth + 1)` loop. -/
def sentSearchFields : List (String × Json) → Nat → List String
  | [], _ => []
  | kv :: rest, depth =>
    sentSearch kv.2 (depth + 1) ++ sentSearchFields rest depth

/-- The `for item in obj: _search(item, depth + 1)` loop. -/
def sentSearchItems : List Json → Nat → List String
  | [], _ => []
  | j :: rest, depth =>
    sentSearch j (depth + 1) ++ sentSearchItems rest depth

end

/-- The mutable state of `reviews_trustpilot._extract_nextjs_data`'s
`_search`. -/
structure TPState where
  overall_rating : Option Int
  review_count : Option Int
  distribution : List (Int × Int)
deriving DecidableEq, Repr

/-- The all-`None` initial state. -/
def initTPState : TPState := ⟨none, none, []⟩

/-- Integer-string parsing for `_to_int` / `_to_float` (their integral
core). -/
def parseIntDigits (cs : List Char) : Option Int :=
  if cs ≠ [] && cs.all Char.isDigit then (parseNatDigits cs).map Int.ofNat
  else none

/-- `reviews_trustpilot._to_float`, on its integral core (Python `bool` is
an `int`/`float` instance). -/
def to_float : Json → Option Int
  | .num n => some n
  | .bool b => some (if b then 1 else 0)
  | .str s => parseIntDigits (pyStrip s).data
  | _ => none

/-- `reviews_trustpilot._to_int`: comma-stripped digits. -/
def to_int : Json → Option Int
  | .num n => some n
  | .bool b => some (if b then 1 else 0)
  | .str s =>
    parseIntDigits
      (pyStrip (String.mk (s.data.filter (fun c => c ≠ ',')))).data
  | _ => none

/-- Lift the numeric coercions over `dict.get` results (`_to_int(None)` is
`None`). -/
def to_int_opt : Option Json → Option Int
  | none => none
  | some j => to_int j

/-- Lift `_to_float` over `dict.get` results. -/
def to_float_opt : Option Json → Option Int
  | none => none
  | some j => to_float j

/-- Python `dict[star] = count` on the insertion-ordered distribution. -/
def setStar (dist : List (Int × Int)) (star : Int) (count : Int) :
    List (Int × Int) :=
  if dist.any (fun kv => kv.1 = star) then
    dist.map (fun kv => if kv.1 = star then (star, count) else kv)
  else dist ++ [(star, count)]

/-- One distribution entry: `entry.get("stars", entry.get("star"))` and
`entry.get("count")`, recorded when both parse and the star is in 1..5. -/
def distEntryStep (st : TPState) (entry : Json) : TPState :=
  match entry with
  | .obj fields =>
    let star := to_int_opt (match jsonGet fields "stars" with
      | some v => some v
      | none => jsonGet fields "star")
    let count := to_int_opt (jsonGet fields "count")
    match star, count with
    | some s, some c =>
      if 1 ≤ s && s ≤ 5 then
        { st with distribution := setStar st.distribution s c }
      else st
    | _, _ => st
  | _ => st

/-- One distribution key (`reviewsDistribution` / `ratingDistribution` /
`distribution`): iterate the entries when the value is a list. -/
def distKeyStep (fields : List (String × Json)) (st : TPState)
    (key : String) : TPState :=
  match jsonGet fields key with
  | some (.arr entries) => entries.foldl distEntryStep st
  | _ => st

/-- The dict-level field updates of the Trustpilot `_search` (trustScore,
numberOfReviews, star distribution), before recursing into the values. -/
def tpNodeStep (fields : List (String × Json)) (st : TPState) : TPState :=
  let st1 :=
    if (jsonGet fields "trustScore").isSome && st.overall_rating = none then
      { st with overall_rating := to_float_opt (jsonGet fields "trustScore") }
    else st
  let st2 :=
    if (jsonGet fields "numberOfReviews").isSome && st1.review_count = none
    then
      { st1 with review_count :=
        match jsonGet fields "numberOfReviews" with
        | some (.obj sub) => to_int_opt (jsonGet sub "total")
        | some v => to_int v
        | none => none }
    else st1
  ["reviewsDistribution", "ratingDistribution", "distribution"].foldl
    (distKeyStep fields) st2

mutual

/-- `reviews_trustpilot._extract_nextjs_data`'s `_search`: an unbounded
structural recursion over the parsed JSON (no depth counter). -/
def tpSearch : Json → TPState → TPState
  | .obj fields, st => tpSearchFields fields (tpNodeStep fields st)
  | .arr items, st => tpSearchItems items st
  | _, st => st

/-- The `for v in obj.values(): _search(v)` loop. -/
def tpSearchFields : List (String × Json) → TPState → TPState
  | [], st => st
  | kv :: rest, st => tpSearchFields rest (tpSearch kv.2 st)

/-- The `for item in obj: _search(item)` loop. -/
def tpSearchItems : List Json → TPState → TPState
  | [], st => st
  | j :: rest, st => tpSearchItems rest (tpSearch j st)

end

/-- A JSON value nested `n` single-key objects deep. -/
def nestK : Nat → Json → Json
  | 0, j => j
  | n + 1, j => Json.obj [("k", nestK n j)]

/-- C6 counterexample.  The Trustpilot rating search finds a `trustScore`
buried 25 objects deep: it descends far past any cap of about 15, so the
claim that the review extractors' rating/count search never descends past
a cap of about 15 is false on the code. -/
theorem tp_search_unbounded_counterexample :
    (tpSearch (nestK 25 (Json.obj [("trustScore", Json.num 4)]))
      initTPState).overall_rating = some 4 ∧
    sentSearch (nestK 25 (Json.obj [("reviews",
      Json.arr [Json.obj [("text",
        Json.str "absolutely terrible service")]])])) 0 = [] := by
  constructor
  · rfl
  · rfl

/-- C6 amended.  Only the sentiment review extractor's recursive search is
depth-bounded with cap 15: beyond the cap it collects nothing, on any
input.  The Trustpilot rating/count search has no depth bound: it is a
total structural recursion that retrieves a `trustScore` nested arbitrarily
deep, at any depth `n`. -/
theorem review_search_depth_amended :
    (∀ (j : Json) (depth : Nat), 15 < depth → sentSearch j depth = []) ∧
    (∀ n : Nat,
      (tpSearch (nestK n (Json.obj [("trustScore", Json.num 4)]))
        initTPState).overall_rating = some 4) := by
  constructor
  · intro j depth h
    cases j <;>
      (rw [sentSearch] <;>
        first
          | rw [if_pos h]
          | (intro _ hcon; exact Json.noConfusion hcon))
  · intro n
    induction n with
    | zero => rfl
    | succ m ih => exact ih

/-- Witness for the amended C6: the cap bites at depth 16 on a concrete
payload, and the unbounded search succeeds at nesting depth 2. -/
theorem review_search_depth_amended_witness :
    15 < 16 ∧
    sentSearch (Json.obj [("reviews", Json.arr [Json.obj
      [("text", Json.str "absolutely terrible service")]])]) 16 = [] ∧
    (tpSearch (nestK 2 (Json.obj [("trustScore", Json.num 4)]))
      initTPState).overall_rating = some 4 :=
  ⟨by decide,
    review_search_depth_amended.1 _ 16 (by decide),
    review_search_depth_amended.2 2⟩

/-! ## Python `difflib` (as used by `snapshots._build_unified_diff`)

`difflib.unified_diff(a, b, fromfile, tofile, lineterm="")` over
`SequenceMatcher(None, a, b)`: `isjunk` is `None` (the junk set is empty)
and `autojunk` removes popular elements (count > n/100 + 1 when n ≥ 200)
from `b2j` only. -/

/-- The autojunk popularity test of `SequenceMatcher.__chain_b`. -/
def bPopular (b : List String) (s : String) : Bool :=
  decide (200 ≤ b.length) && decide (b.length / 100 + 1 < b.count s)

/-- `b2j`: the ascending indices of the non-popular occurrences of a line
in `b` (popular keys are deleted wholesale). -/
def b2jOf (b : List String) (s : String) : List Nat :=
  if bPopular b s then []
  else (List.range b.length).filter (fun j => b.getD j "" == s)

/-- The junk test `self.bjunk.__contains__`: empty, since `isjunk=None`. -/
def bJunk (_b : List String) (_s : String) : Bool := false

/-- The inner `for j in b2j.get(a[i], nothing)` loop of
`find_longest_match`: `continue` below `blo`, `break` at `bhi` (the index
list is ascending), otherwise extend the run length `k` from the previous
row and better the best on strict improvement.  Returns the new row
(`newj2len`) and the best triple. -/
def flmInner (j2len : Nat → Nat) (i blo bhi : Nat) :
    List Nat → (Nat → Nat) → Nat × Nat × Nat →
    (Nat → Nat) × (Nat × Nat × Nat)
  | [], acc, best => (acc, best)
  | j :: rest, acc, best =>
    if j < blo then flmInner j2len i blo bhi rest acc best
    else if bhi ≤ j then (acc, best)
    else
      let k := (if j = 0 then 0 else j2len (j - 1)) + 1
      let acc' := fun x => if x = j then k else acc x
      let best' := if best.2.2 < k then (i + 1 - k, j + 1 - k, k) else best
      flmInner j2len i blo bhi rest acc' best'

/-- The outer `for i in range(alo, ahi)` loop of `find_longest_match`. -/
def flmOuter (a : List String) (b2j : String → List Nat) (blo bhi : Nat) :
    List Nat → (Nat → Nat) → Nat × Nat × Nat → Nat × Nat × Nat
  | [], _, best => best
  | i :: rest, j2len, best =>
    let r := flmInner j2len i blo bhi (b2j (a.getD i "")) (fun _ => 0) best
    flmOuter a b2j blo bhi rest r.1 r.2

/-- A downward extension loop of `find_longest_match`
(`while besti > alo and bestj > blo and ok(b[bestj-1]) and
a[besti-1] == b[bestj-1]`); the fuel is at least the initial `besti`. -/
def extDown (a b : List String) (ok : String → Bool) (alo blo : Nat) :
    Nat → Nat × Nat × Nat → Nat × Nat × Nat
  | 0, st => st
  | fuel + 1, (bi, bj, sz) =>
    if alo < bi && blo < bj && ok (b.getD (bj - 1) "") &&
        (a.getD (bi - 1) "" == b.getD (bj - 1) "") then
      extDown a b ok alo blo fuel (bi - 1, bj - 1, sz + 1)
    else (bi, bj, sz)

/-- An upward extension loop of `find_longest_match`; the fuel is at least
`ahi`. -/
def extUp (a b : List String) (ok : String → Bool) (ahi bhi : Nat) :
    Nat → Nat × Nat × Nat → Nat × Nat × Nat
  | 0, st => st
  | fuel + 1, (bi, bj, sz) =>
    if bi + sz < ahi && bj + sz < bhi && ok (b.getD (bj + sz) "") &&
        (a.getD (bi + sz) "" == b.getD (bj + sz) "") then
      extUp a b ok ahi bhi fuel (bi, bj, sz + 1)
    else (bi, bj, sz)

/-- `SequenceMatcher.find_longest_match(alo, ahi, blo, bhi)`: the dynamic
programming loop, then the four extension loops (non-junk down/up, junk
down/up). -/
def find_longest_match (a b : List String) (b2j : String → List Nat)
    (isbjunk : String → Bool) (alo ahi blo bhi : Nat) : Nat × Nat × Nat :=
  let best0 := flmOuter a b2j blo bhi (List.range' alo (ahi - alo))
    (fun _ => 0) (alo, blo, 0)
  let b1 := extDown a b (fun s => !isbjunk s) alo blo best0.1 best0
  let b2 := extUp a b (fun s => !isbjunk s) ahi bhi ahi b1
  let b3 := extDown a b isbjunk alo blo b2.1 b2
  extUp a b isbjunk ahi bhi ahi b3

/-- The `get_matching_blocks` divide-and-conquer recursion (the queue of
the source, as a recursion); the fuel bounds the recursion depth. -/
def mbRec (a b : List String) (b2j : String → List Nat)
    (isbjunk : String → Bool) :
    Nat → Nat → Nat → Nat → Nat → List (Nat × Nat × Nat)
  | 0, _, _, _, _ => []
  | fuel + 1, alo, ahi, blo, bhi =>
    let m := find_longest_match a b b2j isbjunk alo ahi blo bhi
    if 0 < m.2.2 then
      mbRec a b b2j isbjunk fuel alo m.1 blo m.2.1 ++ [m] ++
        mbRec a b b2j isbjunk fuel (m.1 + m.2.2) ahi (m.2.1 + m.2.2) bhi
    else []

/-- Lexicographic order on matching blocks (`matching_blocks.sort()`). -/
def blockLe (x y : Nat × Nat × Nat) : Bool :=
  decide (x.1 < y.1) ||
    (decide (x.1 = y.1) && (decide (x.2.1 < y.2.1) ||
      (decide (x.2.1 = y.2.1) && decide (x.2.2 ≤ y.2.2))))

/-- Insertion into a `blockLe`-sorted list. -/
def insertBlock (x : Nat × Nat × Nat) :
    List (Nat × Nat × Nat) → List (Nat × Nat × Nat)
  | [] => [x]
  | y :: rest =>
    if blockLe x y then x :: y :: rest else y :: insertBlock x rest

/-- Insertion sort of matching blocks. -/
def sortBlocks : List (Nat × Nat × Nat) → List (Nat × Nat × Nat)
  | [] => []
  | x :: rest => insertBlock x (sortBlocks rest)

/-- The adjacent-block merge of `get_matching_blocks` (`non_adjacent`). -/
def mergeBlocks : List (Nat × Nat × Nat) → Nat × Nat × Nat →
    List (Nat × Nat × Nat)
  | [], acc => if acc.2.2 ≠ 0 then [acc] else []
  | blk :: rest, acc =>
    if acc.1 + acc.2.2 = blk.1 && acc.2.1 + acc.2.2 = blk.2.1 then
      mergeBlocks rest (acc.1, acc.2.1, acc.2.2 + blk.2.2)
    else
      (if acc.2.2 ≠ 0 then [acc] else []) ++ mergeBlocks rest blk

/-- `SequenceMatcher.get_matching_blocks`: recursion, sort, merge, and the
`(la, lb, 0)` sentinel. -/
def get_matching_blocks (a b : List String) : List (Nat × Nat × Nat) :=
  mergeBlocks (sortBlocks (mbRec a b (b2jOf b) (bJunk b)
    (a.length + b.length + 1) 0 a.length 0 b.length)) (0, 0, 0) ++
    [(a.length, b.length, 0)]

/-- A `get_opcodes` entry `(tag, i1, i2, j1, j2)`. -/
structure Opcode where
  tag : String
  a1 : Nat
  a2 : Nat
  b1 : Nat
  b2 : Nat
deriving DecidableEq, Repr

/-- The opcode loop of `get_opcodes` over the matching blocks. -/
def getOpcodesGo : List (Nat × Nat × Nat) → Nat → Nat → List Opcode
  | [], _, _ => []
  | (ai, bj, size) :: rest, i, j =>
    let tag := if i < ai && j < bj then "replace"
      else if i < ai then "delete"
      else if j < bj then "insert"
      else ""
    (if tag ≠ "" then [⟨tag, i, ai, j, bj⟩] else []) ++
      (if size ≠ 0 then [⟨"equal", ai, ai + size, bj, bj + size⟩] else []) ++
      getOpcodesGo rest (ai + size) (bj + size)

/-- `SequenceMatcher.get_opcodes`. -/
def get_opcodes (a b : List String) : List Opcode :=
  getOpcodesGo (get_matching_blocks a b) 0 0

/-- The leading-group fixup of `get_grouped_opcodes`. -/
def fixupHead (n : Nat) : List Opcode → List Opcode
  | [] => []
  | c :: rest =>
    if c.tag == "equal" then
      ⟨c.tag, max c.a1 (c.a2 - n), c.a2, max c.b1 (c.b2 - n), c.b2⟩ :: rest
    else c :: rest

/-- The trailing-group fixup of `get_grouped_opcodes`. -/
def fixupLast (n : Nat) : List Opcode → List Opcode
  | [] => []
  | [c] =>
    if c.tag == "equal" then
      [⟨c.tag, c.a1, min c.a2 (c.a1 + n), c.b1, min c.b2 (c.b1 + n)⟩]
    else [c]
  | c :: rest => c :: fixupLast n rest

/-- The final `yield` guard of `get_grouped_opcodes`: a group is emitted
unless it is empty or a single `equal` opcode. -/
def groupKeep (group : List Opcode) : Bool :=
  match group with
  | [] => false
  | [g] => !(g.tag == "equal")
  | _ => true

/-- The grouping loop of `get_grouped_opcodes` (`nn = n + n`). -/
def groupedGo (n : Nat) : List Opcode → List Opcode → List (List Opcode)
  | [], group => if groupKeep group then [group] else []
  | c :: rest, group =>
    if c.tag == "equal" && decide (n + n < c.a2 - c.a1) then
      (group ++
        [⟨c.tag, c.a1, min c.a2 (c.a1 + n), c.b1, min c.b2 (c.b1 + n)⟩]) ::
        groupedGo n rest
          [⟨c.tag, max c.a1 (c.a2 - n), c.a2, max c.b1 (c.b2 - n), c.b2⟩]
    else groupedGo n rest (group ++ [c])

/-- `SequenceMatcher.get_grouped_opcodes(n)`. -/
def get_grouped_opcodes (a b : List String) (n : Nat) :
    List (List Opcode) :=
  let codes0 := get_opcodes a b
  let codes1 := if codes0.isEmpty then [⟨"equal", 0, 1, 0, 1⟩] else codes0
  groupedGo n (fixupLast n (fixupHead n codes1)) []

/-- `difflib._format_range_unified`. -/
def formatRangeUnified (start stop : Nat) : String :=
  let beginning := start + 1
  let length := stop - start
  if length = 1 then toString beginning
  else
    toString (if length = 0 then beginning - 1 else beginning) ++ "," ++
      toString length

/-- The per-opcode line emission of `unified_diff`. -/
def opcodeLines (a b : List String) (c : Opcode) : List String :=
  (if c.tag == "equal" then
    ((a.drop c.a1).take (c.a2 - c.a1)).map (fun line => " " ++ line)
  else []) ++
  (if c.tag == "replace" || c.tag == "delete" then
    ((a.drop c.a1).take (c.a2 - c.a1)).map (fun line => "-" ++ line)
  else []) ++
  (if c.tag == "replace" || c.tag == "insert" then
    ((b.drop c.b1).take (c.b2 - c.b1)).map (fun line => "+" ++ line)
  else [])

/-- The hunk of one opcode group: the `@@` header then the prefixed
lines. -/
def groupLines (a b : List String) (group : List Opcode) : List String :=
  match group with
  | [] => []
  | g0 :: rest =>
    let gN := (g0 :: rest).getLastD g0
    ("@@ -" ++ formatRangeUnified g0.a1 gN.a2 ++ " +" ++
        formatRangeUnified g0.b1 gN.b2 ++ " @@") ::
      ((g0 :: rest).map (opcodeLines a b)).flatten

/-- `difflib.unified_diff(a, b, fromfile, tofile, lineterm="")`: the two
file headers are emitted before the first group only. -/
def unified_diff (a b : List String) (fromfile tofile : String) :
    List String :=
  let groups := get_grouped_opcodes a b 3
  if groups.isEmpty then []
  else ("--- " ++ fromfile) :: ("+++ " ++ tofile) ::
    (groups.map (groupLines a b)).flatten

/-! ## `snapshots._TIMESTAMP_PATTERN`

`(?:\d{4}-\d{2}-\d{2}[T\s]\d{2}:\d{2}(?::\d{2})?(?:\.\d+)?(?:Z|[+-]\d{2}:?\d{2})?)
 |(?:\b\d{1,2}:\d{2}(?::\d{2})?\s?(?:AM|PM|UTC)?\b)` with `re.IGNORECASE`,
substituted by `re.sub` with `[TIMESTAMP]`.  The word class `\w` is modelled
on its ASCII core (alphanumerics and underscore). -/

/-- `\w` (ASCII core). -/
def isWordChar (c : Char) : Bool :=
  c.isAlphanum || c = '_'

/-- Exactly `k` digits. -/
def pDigits : Nat → List Char → Option (List Char)
  | 0, cs => some cs
  | k + 1, c :: rest => if c.isDigit then pDigits k rest else none
  | _ + 1, [] => none

/-- One literal character. -/
def pChar (c : Char) : List Char → Option (List Char)
  | x :: rest => if x = c then some rest else none
  | [] => none

/-- `[T\s]` under `IGNORECASE` (`T`, `t` or whitespace). -/
def pTSep : List Char → Option (List Char)
  | c :: rest =>
    if c = 'T' || c = 't' || pySpace c then some rest else none
  | [] => none

/-- The greedy optional `(?::\d{2})?`. -/
def pSeconds (cs : List Char) : List Char :=
  match cs with
  | ':' :: d1 :: d2 :: rest =>
    if d1.isDigit && d2.isDigit then rest else cs
  | _ => cs

/-- The greedy optional `(?:\.\d+)?`. -/
def pFrac (cs : List Char) : List Char :=
  match cs with
  | '.' :: rest =>
    if (rest.takeWhile Char.isDigit) = [] then cs
    else rest.dropWhile Char.isDigit
  | _ => cs

/-- The greedy optional `(?:Z|[+-]\d{2}:?\d{2})?` (with `Z`/`z`;
`:?` backtracks when the trailing digits are missing). -/
def pTz (cs : List Char) : List Char :=
  match cs with
  | 'Z' :: rest => rest
  | 'z' :: rest => rest
  | c :: d1 :: d2 :: more =>
    if (c = '+' || c = '-') && d1.isDigit && d2.isDigit then
      match more with
      | ':' :: d3 :: d4 :: more2 =>
        if d3.isDigit && d4.isDigit then more2 else cs
      | d3 :: d4 :: more2 =>
        if d3.isDigit && d4.isDigit then more2 else cs
      | _ => cs
    else cs
  | _ => cs

/-- The first (ISO date-time) alternative of the timestamp pattern;
returns the rest after the match. -/
def matchTsA (cs : List Char) : Option (List Char) :=
  (pDigits 4 cs).bind fun r1 =>
  (pChar '-' r1).bind fun r2 =>
  (pDigits 2 r2).bind fun r3 =>
  (pChar '-' r3).bind fun r4 =>
  (pDigits 2 r4).bind fun r5 =>
  (pTSep r5).bind fun r6 =>
  (pDigits 2 r6).bind fun r7 =>
  (pChar ':' r7).bind fun r8 =>
  (pDigits 2 r8).map fun r9 =>
  pTz (pFrac (pSeconds r9))

/-- Two characters, compared case-insensitively. -/
def matchCi2 (a b : Char) : List Char → Option (List Char)
  | x :: y :: rest =>
    if lowerChar x = a && lowerChar y = b then some rest else none
  | _ => none

/-- Three characters, compared case-insensitively. -/
def matchCi3 (a b c : Char) : List Char → Option (List Char)
  | x :: y :: z :: rest =>
    if lowerChar x = a && lowerChar y = b && lowerChar z = c then some rest
    else none
  | _ => none

/-- Whether a `\b` boundary holds between the last consumed character
class and the head of the rest. -/
def tsBoundaryOk (lastIsWord : Bool) (rest : List Char) : Bool :=
  lastIsWord != (match rest with | c :: _ => isWordChar c | [] => false)

/-- `(?:AM|PM|UTC)?\b` with alternation backtracking (`IGNORECASE`);
`lastIsWord` is the class of the character just before the suffix. -/
def tsBSuffix (lastIsWord : Bool) (cs : List Char) : Option (List Char) :=
  let tryEmpty := if tsBoundaryOk lastIsWord cs then some cs else none
  let tryUtc := match matchCi3 'u' 't' 'c' cs with
    | some rest => if tsBoundaryOk true rest then some rest else tryEmpty
    | none => tryEmpty
  let tryPm := match matchCi2 'p' 'm' cs with
    | some rest => if tsBoundaryOk true rest then some rest else tryUtc
    | none => tryUtc
  match matchCi2 'a' 'm' cs with
  | some rest => if tsBoundaryOk true rest then some rest else tryPm
  | none => tryPm

/-- `\s?(?:AM|PM|UTC)?\b`, entered with a digit as the last consumed
character. -/
def tsBAfterSec (cs : List Char) : Option (List Char) :=
  let noSp := tsBSuffix true cs
  match cs with
  | c :: rest =>
    if pySpace c then
      match tsBSuffix false rest with
      | some r => some r
      | none => noSp
    else noSp
  | [] => noSp

/-- `(?::\d{2})?\s?(?:AM|PM|UTC)?\b`, entered after the `\d{1,2}:\d{2}`
core. -/
def tsBTail (cs : List Char) : Option (List Char) :=
  let noSec := tsBAfterSec cs
  match cs with
  | ':' :: d1 :: d2 :: rest =>
    if d1.isDigit && d2.isDigit then
      match tsBAfterSec rest with
      | some r => some r
      | none => noSec
    else noSec
  | _ => noSec

/-- The second (clock time) alternative
`\b\d{1,2}:\d{2}(?::\d{2})?\s?(?:AM|PM|UTC)?\b`; `prev` is the character
before the match position (for the leading `\b`), and the greedy
`\d{1,2}` backtracks from two digits to one. -/
def matchTsB (prev : Option Char) (cs : List Char) : Option (List Char) :=
  let boundary := match prev with
    | some c => !isWordChar c
    | none => true
  if !boundary then none
  else
    let try1 := match cs with
      | d1 :: ':' :: e1 :: e2 :: rest =>
        if d1.isDigit && e1.isDigit && e2.isDigit then tsBTail rest
        else none
      | _ => none
    match cs with
    | d1 :: d2 :: ':' :: e1 :: e2 :: rest =>
      if d1.isDigit && d2.isDigit && e1.isDigit && e2.isDigit then
        match tsBTail rest with
        | some r => some r
        | none => try1
      else try1
    | _ => try1

/-- The replacement text. -/
def TIMESTAMP_REPLACEMENT : List Char := "[TIMESTAMP]".data

/-- The `re.sub` scan: at each position try alternative A then B
(non-overlapping, continuing after each match); `prev` is the previous
original character, for `\b`.  The fuel is the remaining length. -/
def tsSubGo : Nat → Option Char → List Char → List Char
  | 0, _, cs => cs
  | _ + 1, _, [] => []
  | fuel + 1, prev, c :: rest =>
    match matchTsA (c :: rest) with
    | some r =>
      let n := (c :: rest).length - r.length
      TIMESTAMP_REPLACEMENT ++
        tsSubGo fuel (some ((c :: rest).getD (n - 1) c)) r
    | none =>
      match matchTsB prev (c :: rest) with
      | some r =>
        let n := (c :: rest).length - r.length
        TIMESTAMP_REPLACEMENT ++
          tsSubGo fuel (some ((c :: rest).getD (n - 1) c)) r
      | none => c :: tsSubGo fuel (some c) rest

/-- `_TIMESTAMP_PATTERN.sub("[TIMESTAMP]", s)`. -/
def TIMESTAMP_sub (s : String) : String :=
  String.mk (tsSubGo s.data.length none s.data)

/-- Whether a whole string is a date/time-like token: one alternative of
`_TIMESTAMP_PATTERN` matches it entirely from its start. -/
def tsFullmatch (s : String) : Bool :=
  match matchTsA s.data with
  | some [] => true
  | _ =>
    match matchTsB none s.data with
    | some [] => true
    | _ => false

/-! ## The snapshot/diff engine (`src/scrapers/snapshots.py`) -/

/-- `snapshots._normalize_for_diff`: timestamp masking, then the visible
text nodes with intra-node whitespace collapsed. -/
def normalize_for_diff (html_content : String) : List String :=
  (stripped_strings (TIMESTAMP_sub html_content)).map collapseWs

/-- `snapshots._build_unified_diff`: the unified diff of the normalized
line lists, joined with newlines. -/
def build_unified_diff (previous_html current_html from_label to_label :
    String) : String :=
  String.intercalate "\n"
    (unified_diff (normalize_for_diff previous_html)
      (normalize_for_diff current_html) from_label to_label)

/-- Splitting a character list at every newline. -/
def splitOnNlAux : List Char → List (List Char)
  | [] => [[]]
  | '\n' :: rest => [] :: splitOnNlAux rest
  | c :: rest =>
    match splitOnNlAux rest with
    | [] => [[c]]
    | h :: t => (c :: h) :: t

/-- Python `diff_text.splitlines()` on newline-joined diff text (the empty
string has no lines). -/
def splitLinesPy (s : String) : List String :=
  if s = "" then [] else (splitOnNlAux s.data).map String.mk

/-- Python `line.startswith(pre)`. -/
def strStarts (line pre : String) : Bool :=
  pre.data.isPrefixOf line.data

/-- The counting loop of `snapshots._count_diff_changes`. -/
def countLinesGo : List String → Nat × Nat → Nat × Nat
  | [], acc => acc
  | line :: rest, (additions, removals) =>
    if strStarts line "+++" || strStarts line "---" then
      countLinesGo rest (additions, removals)
    else if strStarts line "+" then
      countLinesGo rest (additions + 1, removals)
    else if strStarts line "-" then
      countLinesGo rest (additions, removals + 1)
    else countLinesGo rest (additions, removals)

/-- `snapshots._count_diff_changes`. -/
def count_diff_changes (diff_text : String) : Nat × Nat :=
  countLinesGo (splitLinesPy diff_text) (0, 0)

/-- `snapshots.SnapshotRecord`. -/
structure SnapshotRecord where
  competitor_id : Nat
  scrape_date : String
  scraped_at : String
  page_type : String
  page_url : String
  html_content : String
  content_hash : String
deriving DecidableEq, Repr

/-- A row of the append-only `snapshots` table: the autoincrement id and
the record columns. -/
structure SnapRow where
  id : Nat
  snapshot : SnapshotRecord
deriving DecidableEq, Repr

/-- A row of the `diffs` table. -/
structure DiffRow where
  competitor_id : Nat
  diff_date : String
  page_type : String
  previous_snapshot_id : Nat
  current_snapshot_id : Nat
  diff_text : String
  additions_count : Nat
  removals_count : Nat
deriving DecidableEq, Repr

/-- The engine-visible database state. -/
structure DB where
  snapshots : List SnapRow
  diffs : List DiffRow
  nextSnapshotId : Nat
deriving DecidableEq, Repr

/-- `snapshots._store_snapshot`: append-only insert; returns the new
autoincrement row id. -/
def store_snapshot (db : DB) (snapshot : SnapshotRecord) : DB × Nat :=
  let id := db.nextSnapshotId
  ({ db with
      snapshots := db.snapshots ++ [SnapRow.mk id snapshot]
      nextSnapshotId := id + 1 }, id)

/-- `snapshots._latest_previous_snapshot`: the row of greatest id among
those with the same competitor and page type and a smaller id
(`ORDER BY id DESC LIMIT 1`). -/
def latest_previous_snapshot (db : DB) (competitor_id : Nat)
    (page_type : String) (current_snapshot_id : Nat) : Option SnapRow :=
  (db.snapshots.filter (fun r =>
      r.snapshot.competitor_id = competitor_id &&
      r.snapshot.page_type = page_type &&
      r.id < current_snapshot_id)).foldl
    (fun acc r =>
      match acc with
      | none => some r
      | some m => if m.id < r.id then some r else some m) none

/-- `snapshots._store_diff_if_changed`: no previous snapshot, an empty
diff, or all-zero counts persist nothing; otherwise one `diffs` row is
inserted.  Returns the updated state and whether a row was stored. -/
def store_diff_if_changed (db : DB) (snapshot_id : Nat)
    (snapshot : SnapshotRecord) : DB × Bool :=
  match latest_previous_snapshot db snapshot.competitor_id
      snapshot.page_type snapshot_id with
  | none => (db, false)
  | some previous =>
    let diff_text := build_unified_diff previous.snapshot.html_content
      snapshot.html_content ("snapshot:" ++ toString previous.id)
      ("snapshot:" ++ toString snapshot_id)
    if diff_text = "" then (db, false)
    else
      let counts := count_diff_changes diff_text
      if counts.1 = 0 && counts.2 = 0 then (db, false)
      else
        ({ db with diffs := db.diffs ++
          [⟨snapshot.competitor_id, snapshot.scrape_date,
            snapshot.page_type, previous.id, snapshot_id, diff_text,
            counts.1, counts.2⟩] }, true)

/-! ## The diff of equal sequences is empty

The following development characterizes `find_longest_match` on two equal
sequences: the dynamic-programming loop returns an on-diagonal best match
(`mlRow` is the row function `j2len` it maintains), the non-junk extension
loops (with `isjunk=None`, the junk set is empty and the popularity filter
only affects `b2j`) then stretch any diagonal match to the full range, and
the whole pipeline yields one `equal` opcode and no opcode groups. -/

theorem mem_b2jOf {l : List String} {s : String} {j : Nat} :
    j ∈ b2jOf l s ↔
      (bPopular l s = false ∧ j < l.length ∧ l.getD j "" = s) := by
  rw [b2jOf]
  by_cases hp : bPopular l s
  · simp [hp]
  · simp only [Bool.not_eq_true] at hp
    simp [hp, List.mem_filter, List.mem_range]

theorem b2jOf_sorted (l : List String) (s : String) :
    (b2jOf l s).Pairwise (· < ·) := by
  rw [b2jOf]
  by_cases hp : bPopular l s
  · simp [hp]
  · simp only [Bool.not_eq_true] at hp
    rw [hp]
    simp only [Bool.false_eq_true, if_neg, ite_false]
    exact (List.pairwise_lt_range _).filter _

/-- The `j2len` row functions of the `find_longest_match` loop on two
copies of `l`: `mlRow l lo hi (d+1)` is the row after processing outer
index `lo + d`, and `mlRow l lo hi 0` is the empty starting row. -/
def mlRow (l : List String) (lo hi : Nat) : Nat → Nat → Nat
  | 0, _ => 0
  | d + 1, j =>
    if lo ≤ j ∧ j < hi ∧ j ∈ b2jOf l (l.getD (lo + d) "") then
      (if j = 0 then 0 else mlRow l lo hi d (j - 1)) + 1
    else 0

theorem mlRow_le_row (l : List String) (lo hi : Nat) :
    ∀ d j, mlRow l lo hi d j ≤ d := by
  intro d
  induction d with
  | zero => intro j; exact Nat.le_refl 0
  | succ d ih =>
    intro j
    rw [mlRow]
    split
    · rename_i hcond
      by_cases hj : j = 0
      · simp [hj]
      · simp only [hj, if_neg, ite_false]
        exact Nat.succ_le_succ (ih (j - 1))
    · exact Nat.zero_le _

theorem mlRow_le_col (l : List String) (lo hi : Nat) :
    ∀ d j, mlRow l lo hi d j ≤ j + 1 - lo := by
  intro d
  induction d with
  | zero => intro j; exact Nat.zero_le _
  | succ d ih =>
    intro j
    rw [mlRow]
    split
    · rename_i hcond
      obtain ⟨hlo, _, _⟩ := hcond
      by_cases hj : j = 0
      · subst hj
        have : lo = 0 := Nat.le_zero.mp hlo
        simp [this]
      · simp only [hj, if_neg, ite_false]
        have h1 := ih (j - 1)
        omega
    · exact Nat.zero_le _

theorem mlRow_pos_facts {l : List String} {lo hi : Nat} {d j : Nat}
    (h : mlRow l lo hi (d + 1) j ≠ 0) :
    lo ≤ j ∧ j < hi ∧ j ∈ b2jOf l (l.getD (lo + d) "") := by
  by_contra hcon
  rw [mlRow, if_neg hcon] at h
  exact h rfl

theorem mlRow_succ (l : List String) (lo hi d j : Nat) :
    mlRow l lo hi (d + 1) j =
      if lo ≤ j ∧ j < hi ∧ j ∈ b2jOf l (l.getD (lo + d) "") then
        (if j = 0 then 0 else mlRow l lo hi d (j - 1)) + 1
      else 0 := by
  rw [mlRow]

/-- Diagonal domination to the right: within a row, no column beyond the
diagonal can beat the diagonal. -/
theorem mlRow_dom_diag (l : List String) (lo hi : Nat)
    (hn : hi ≤ l.length) :
    ∀ d j, lo + d < j → mlRow l lo hi (d + 1) j ≤
      mlRow l lo hi (d + 1) (lo + d) := by
  intro d
  induction d with
  | zero =>
    intro j hj
    by_cases h0 : mlRow l lo hi (0 + 1) j = 0
    · rw [h0]; exact Nat.zero_le _
    · obtain ⟨hlo, hhi, hmem⟩ := mlRow_pos_facts h0
      obtain ⟨hpop, hjl, hjs⟩ := mem_b2jOf.mp hmem
      have hcond : lo ≤ lo + 0 ∧ lo + 0 < hi ∧
          lo + 0 ∈ b2jOf l (l.getD (lo + 0) "") :=
        ⟨Nat.le_refl _, by omega, mem_b2jOf.mpr ⟨hpop, by omega, rfl⟩⟩
      have hd : 1 ≤ mlRow l lo hi (0 + 1) (lo + 0) := by
        rw [mlRow_succ, if_pos hcond]
        exact Nat.le_add_left 1 _
      have hup : mlRow l lo hi (0 + 1) j ≤ 0 + 1 :=
        mlRow_le_row l lo hi (0 + 1) j
      omega
  | succ d ih =>
    intro j hj
    by_cases h0 : mlRow l lo hi (d + 1 + 1) j = 0
    · rw [h0]; exact Nat.zero_le _
    · obtain ⟨hlo, hhi, hmem⟩ := mlRow_pos_facts h0
      obtain ⟨hpop, hjl, hjs⟩ := mem_b2jOf.mp hmem
      have hji : j ≠ 0 := by omega
      have hval : mlRow l lo hi (d + 1 + 1) j =
          mlRow l lo hi (d + 1) (j - 1) + 1 := by
        rw [mlRow_succ, if_pos ⟨hlo, hhi, hmem⟩, if_neg hji]
      have hcond : lo ≤ lo + (d + 1) ∧ lo + (d + 1) < hi ∧
          lo + (d + 1) ∈ b2jOf l (l.getD (lo + (d + 1)) "") :=
        ⟨Nat.le_add_right _ _, by omega,
          mem_b2jOf.mpr ⟨hpop, by omega, rfl⟩⟩
      have hne : lo + (d + 1) ≠ 0 := by omega
      have hsub : lo + (d + 1) - 1 = lo + d := by omega
      have hdiagval : mlRow l lo hi (d + 1 + 1) (lo + (d + 1)) =
          mlRow l lo hi (d + 1) (lo + d) + 1 := by
        rw [mlRow_succ, if_pos hcond, if_neg hne, hsub]
      rw [hval, hdiagval]
      have := ih (j - 1) (by omega)
      omega

/-- Diagonal domination downward: a column left of the diagonal is bounded
by the diagonal value of its own earlier row. -/
theorem mlRow_dom_lower (l : List String) (lo hi : Nat)
    (hn : hi ≤ l.length) :
    ∀ d j, j < lo + d → mlRow l lo hi (d + 1) j ≤
      mlRow l lo hi (j - lo + 1) j := by
  intro d
  induction d with
  | zero =>
    intro j hj
    have h0 : mlRow l lo hi (0 + 1) j = 0 := by
      by_contra hc
      obtain ⟨hx, _, _⟩ := mlRow_pos_facts hc
      omega
    rw [h0]
    exact Nat.zero_le _
  | succ d ih =>
    intro j hj
    by_cases h0 : mlRow l lo hi (d + 1 + 1) j = 0
    · rw [h0]; exact Nat.zero_le _
    · obtain ⟨hlo, hhi, hmem⟩ := mlRow_pos_facts h0
      obtain ⟨hpop, hjl, hjs⟩ := mem_b2jOf.mp hmem
      have hpopj : bPopular l (l.getD j "") = false := by
        rw [hjs]; exact hpop
      have hrow : lo + (j - lo) = j := by omega
      have hcondj : lo ≤ j ∧ j < hi ∧
          j ∈ b2jOf l (l.getD (lo + (j - lo)) "") := by
        refine ⟨hlo, hhi, ?_⟩
        rw [hrow]
        exact mem_b2jOf.mpr ⟨hpopj, hjl, rfl⟩
      by_cases hj0 : j = 0
      · have hval : mlRow l lo hi (d + 1 + 1) j = 1 := by
          rw [mlRow_succ, if_pos ⟨hlo, hhi, hmem⟩, if_pos hj0]
        have hval2 : mlRow l lo hi (j - lo + 1) j = 1 := by
          rw [mlRow_succ, if_pos hcondj, if_pos hj0]
        rw [hval, hval2]
      · have hval : mlRow l lo hi (d + 1 + 1) j =
            mlRow l lo hi (d + 1) (j - 1) + 1 := by
          rw [mlRow_succ, if_pos ⟨hlo, hhi, hmem⟩, if_neg hj0]
        have hval2 : mlRow l lo hi (j - lo + 1) j =
            mlRow l lo hi (j - lo) (j - 1) + 1 := by
          rw [mlRow_succ, if_pos hcondj, if_neg hj0]
        rw [hval, hval2]
        by_cases hjlo : j - 1 < lo
        · have hz : mlRow l lo hi (d + 1) (j - 1) = 0 := by
            by_contra hc
            obtain ⟨hx, _, _⟩ := mlRow_pos_facts hc
            omega
          omega
        · have hrec := ih (j - 1) (by omega)
          have hidx : j - 1 - lo + 1 = j - lo := by omega
          rw [hidx] at hrec
          omega

/-- The invariant of the best triple in the main loop on equal sequences:
on-diagonal, in range, and dominating every processed diagonal value. -/
def GoodBest (l : List String) (lo hi d : Nat) (best : Nat × Nat × Nat) :
    Prop :=
  best.1 = best.2.1 ∧ lo ≤ best.1 ∧ best.1 + best.2.2 ≤ hi ∧
    ∀ r, r < d → mlRow l lo hi (r + 1) (lo + r) ≤ best.2.2

theorem flmInner_spec (l : List String) (lo hi : Nat) (hn : hi ≤ l.length)
    (d : Nat) (hrow : lo + d < hi) :
    ∀ (js : List Nat) (acc : Nat → Nat) (best : Nat × Nat × Nat),
      js.Pairwise (· < ·) →
      (∀ j, j ∈ js → j ∈ b2jOf l (l.getD (lo + d) "")) →
      (∀ j, acc j = if j ∈ js then 0 else mlRow l lo hi (d + 1) j) →
      GoodBest l lo hi d best →
      ((lo + d) ∉ js → mlRow l lo hi (d + 1) (lo + d) ≤ best.2.2) →
      (∀ j', (flmInner (mlRow l lo hi d) (lo + d) lo hi js acc best).1 j'
          = mlRow l lo hi (d + 1) j') ∧
        GoodBest l lo hi d
          (flmInner (mlRow l lo hi d) (lo + d) lo hi js acc best).2 ∧
        mlRow l lo hi (d + 1) (lo + d) ≤
          (flmInner (mlRow l lo hi d) (lo + d) lo hi js acc best).2.2.2 ∧
        best.2.2 ≤
          (flmInner (mlRow l lo hi d) (lo + d) lo hi js acc best).2.2.2 := by
  intro js
  induction js with
  | nil =>
    intro acc best _ _ hacc hbest hdiag
    refine ⟨?_, hbest, hdiag (List.not_mem_nil _), Nat.le_refl _⟩
    intro j'
    have h := hacc j'
    simpa using h
  | cons j rest ih =>
    intro acc best hsort hsub hacc hbest hdiag
    rw [List.pairwise_cons] at hsort
    by_cases hjlo : j < lo
    · have hstep : flmInner (mlRow l lo hi d) (lo + d) lo hi (j :: rest)
          acc best = flmInner (mlRow l lo hi d) (lo + d) lo hi rest
          acc best := by
        rw [flmInner, if_pos hjlo]
      rw [hstep]
      refine ih acc best hsort.2 ?_ ?_ hbest ?_
      · intro j'' h
        exact hsub j'' (List.mem_cons_of_mem j h)
      · intro j''
        rw [hacc j'']
        by_cases h1 : j'' ∈ rest
        · rw [if_pos h1, if_pos (List.mem_cons_of_mem j h1)]
        · rw [if_neg h1]
          by_cases h2 : j'' = j
          · subst h2
            rw [if_pos (List.mem_cons_self _ _)]
            have hz : mlRow l lo hi (d + 1) j'' = 0 := by
              by_contra hc
              obtain ⟨hx, _, _⟩ := mlRow_pos_facts hc
              omega
            rw [hz]
          · rw [if_neg (fun hmem =>
              (List.mem_cons.mp hmem).elim h2 h1)]
      · intro h
        apply hdiag
        intro hmem
        rcases List.mem_cons.mp hmem with h2 | h2
        · omega
        · exact h h2
    · by_cases hjhi : hi ≤ j
      · have hstep : flmInner (mlRow l lo hi d) (lo + d) lo hi (j :: rest)
            acc best = (acc, best) := by
          rw [flmInner, if_neg hjlo, if_pos hjhi]
        rw [hstep]
        have hnot : (lo + d) ∉ j :: rest := by
          intro hmem
          rcases List.mem_cons.mp hmem with h2 | h2
          · omega
          · have := hsort.1 _ h2
            omega
        refine ⟨?_, hbest, hdiag hnot, Nat.le_refl _⟩
        intro j'
        show acc j' = mlRow l lo hi (d + 1) j'
        rw [hacc j']
        by_cases h1 : j' ∈ j :: rest
        · rw [if_pos h1]
          have hge : hi ≤ j' := by
            rcases List.mem_cons.mp h1 with h2 | h2
            · omega
            · have := hsort.1 _ h2
              omega
          have hz : mlRow l lo hi (d + 1) j' = 0 := by
            by_contra hc
            obtain ⟨_, hx, _⟩ := mlRow_pos_facts hc
            omega
          rw [hz]
        · rw [if_neg h1]
      · have hmemj : j ∈ b2jOf l (l.getD (lo + d) "") :=
          hsub j (List.mem_cons_self _ _)
        have hcondj : lo ≤ j ∧ j < hi ∧
            j ∈ b2jOf l (l.getD (lo + d) "") := ⟨by omega, by omega, hmemj⟩
        have hk : (if j = 0 then 0 else mlRow l lo hi d (j - 1)) + 1 =
            mlRow l lo hi (d + 1) j := by
          rw [mlRow_succ, if_pos hcondj]
        have hjrest : j ∉ rest := fun hmem => by
          have := hsort.1 _ hmem
          omega
        have hstep : flmInner (mlRow l lo hi d) (lo + d) lo hi (j :: rest)
            acc best = flmInner (mlRow l lo hi d) (lo + d) lo hi rest
            (fun x => if x = j then
              (if j = 0 then 0 else mlRow l lo hi d (j - 1)) + 1
              else acc x)
            (if best.2.2 <
                (if j = 0 then 0 else mlRow l lo hi d (j - 1)) + 1 then
              (lo + d + 1 -
                  ((if j = 0 then 0 else mlRow l lo hi d (j - 1)) + 1),
                j + 1 - ((if j = 0 then 0 else mlRow l lo hi d (j - 1)) + 1),
                (if j = 0 then 0 else mlRow l lo hi d (j - 1)) + 1)
              else best) := by
          rw [flmInner, if_neg hjlo, if_neg hjhi]
        rw [hstep]
        have hacc' : ∀ x, (if x = j then
            (if j = 0 then 0 else mlRow l lo hi d (j - 1)) + 1
            else acc x) =
            if x ∈ rest then 0 else mlRow l lo hi (d + 1) x := by
          intro x
          by_cases h2 : x = j
          · subst h2
            rw [if_pos rfl, if_neg hjrest, hk]
          · rw [if_neg h2, hacc x]
            by_cases h1 : x ∈ rest
            · rw [if_pos (List.mem_cons_of_mem j h1), if_pos h1]
            · rw [if_neg (fun hmem => (List.mem_cons.mp hmem).elim h2 h1),
                if_neg h1]
        by_cases hupd : best.2.2 <
            (if j = 0 then 0 else mlRow l lo hi d (j - 1)) + 1
        · rw [if_pos hupd]
          have hjeq : j = lo + d := by
            rcases Nat.lt_trichotomy j (lo + d) with hlt | heq | hgt
            · exfalso
              have hb1 := mlRow_dom_lower l lo hi hn d j hlt
              have hb2 := hbest.2.2.2 (j - lo) (by omega)
              have hco : lo + (j - lo) = j := by omega
              rw [hco] at hb2
              rw [← hk] at hb1
              omega
            · exact heq
            · exfalso
              have hb1 := mlRow_dom_diag l lo hi hn d j hgt
              have hnot : (lo + d) ∉ j :: rest := by
                intro hmem
                rcases List.mem_cons.mp hmem with h2 | h2
                · omega
                · have := hsort.1 _ h2
                  omega
              have hb2 := hdiag hnot
              rw [← hk] at hb1
              omega
          have hkcol : (if j = 0 then 0 else mlRow l lo hi d (j - 1)) + 1 ≤
              j + 1 - lo := by
            rw [hk]
            exact mlRow_le_col l lo hi (d + 1) j
          have hbest' : GoodBest l lo hi d
              (lo + d + 1 -
                  ((if j = 0 then 0 else mlRow l lo hi d (j - 1)) + 1),
                j + 1 - ((if j = 0 then 0 else mlRow l lo hi d (j - 1)) + 1),
                (if j = 0 then 0 else mlRow l lo hi d (j - 1)) + 1) := by
            refine ⟨by rw [← hjeq], ?_, ?_, ?_⟩
            · show lo ≤ lo + d + 1 -
                ((if j = 0 then 0 else mlRow l lo hi d (j - 1)) + 1)
              omega
            · show lo + d + 1 -
                  ((if j = 0 then 0 else mlRow l lo hi d (j - 1)) + 1) +
                  ((if j = 0 then 0 else mlRow l lo hi d (j - 1)) + 1) ≤ hi
              omega
            · intro r hr
              have := hbest.2.2.2 r hr
              show mlRow l lo hi (r + 1) (lo + r) ≤
                (if j = 0 then 0 else mlRow l lo hi d (j - 1)) + 1
              omega
          have hdiag' : (lo + d) ∉ rest →
              mlRow l lo hi (d + 1) (lo + d) ≤
                ((lo + d + 1 -
                  ((if j = 0 then 0 else mlRow l lo hi d (j - 1)) + 1),
                j + 1 - ((if j = 0 then 0 else mlRow l lo hi d (j - 1)) + 1),
                (if j = 0 then 0 else mlRow l lo hi d (j - 1)) + 1) :
                  Nat × Nat × Nat).2.2 := by
            intro _
            rw [← hjeq, ← hk]
          obtain ⟨c1, c2, c3, c4⟩ := ih _ _ hsort.2
            (fun j'' h => hsub j'' (List.mem_cons_of_mem j h)) hacc'
            hbest' hdiag'
          exact ⟨c1, c2, c3, Nat.le_trans (Nat.le_of_lt hupd) c4⟩
        · rw [if_neg hupd]
          have hdiag' : (lo + d) ∉ rest →
              mlRow l lo hi (d + 1) (lo + d) ≤ best.2.2 := by
            intro h
            by_cases h2 : j = lo + d
            · rw [← h2, ← hk]
              omega
            · apply hdiag
              intro hmem
              rcases List.mem_cons.mp hmem with h3 | h3
              · exact h2 h3.symm
              · exact h h3
          exact ih _ _ hsort.2
            (fun j'' h => hsub j'' (List.mem_cons_of_mem j h)) hacc'
            hbest hdiag'

theorem flmOuter_spec (l : List String) (lo hi : Nat) (hn : hi ≤ l.length) :
    ∀ (cnt d : Nat) (best : Nat × Nat × Nat),
      lo + d + cnt ≤ hi →
      GoodBest l lo hi d best →
      GoodBest l lo hi (d + cnt)
        (flmOuter l (b2jOf l) lo hi (List.range' (lo + d) cnt)
          (mlRow l lo hi d) best) := by
  intro cnt
  induction cnt with
  | zero =>
    intro d best _ hbest
    exact hbest
  | succ c ih =>
    intro d best hle hbest
    have hrow : lo + d < hi := by omega
    have hacc : ∀ j, (0 : Nat) =
        if j ∈ b2jOf l (l.getD (lo + d) "") then 0
        else mlRow l lo hi (d + 1) j := by
      intro j
      by_cases hmem : j ∈ b2jOf l (l.getD (lo + d) "")
      · rw [if_pos hmem]
      · rw [if_neg hmem]
        by_cases hz : mlRow l lo hi (d + 1) j = 0
        · exact hz.symm
        · exact absurd (mlRow_pos_facts hz).2.2 hmem
    have hdiag : (lo + d) ∉ b2jOf l (l.getD (lo + d) "") →
        mlRow l lo hi (d + 1) (lo + d) ≤ best.2.2 := by
      intro hmem
      have hz : mlRow l lo hi (d + 1) (lo + d) = 0 := by
        by_contra hc
        exact hmem (mlRow_pos_facts hc).2.2
      rw [hz]
      exact Nat.zero_le _
    obtain ⟨c1, c2, c3, _⟩ := flmInner_spec l lo hi hn d hrow
      (b2jOf l (l.getD (lo + d) "")) (fun _ => 0) best
      (b2jOf_sorted l _) (fun _ h => h) hacc hbest hdiag
    have hrowf : (flmInner (mlRow l lo hi d) (lo + d) lo hi
        (b2jOf l (l.getD (lo + d) "")) (fun _ => 0) best).1 =
        mlRow l lo hi (d + 1) := funext c1
    have hbest' : GoodBest l lo hi (d + 1)
        (flmInner (mlRow l lo hi d) (lo + d) lo hi
          (b2jOf l (l.getD (lo + d) "")) (fun _ => 0) best).2 := by
      obtain ⟨g1, g2, g3, g4⟩ := c2
      refine ⟨g1, g2, g3, ?_⟩
      intro r hr
      by_cases h2 : r = d
      · subst h2
        exact c3
      · exact g4 r (by omega)
    have hunf : flmOuter l (b2jOf l) lo hi (List.range' (lo + d) (c + 1))
        (mlRow l lo hi d) best =
        flmOuter l (b2jOf l) lo hi (List.range' (lo + d + 1) c)
          (flmInner (mlRow l lo hi d) (lo + d) lo hi
            (b2jOf l (l.getD (lo + d) "")) (fun _ => 0) best).1
          (flmInner (mlRow l lo hi d) (lo + d) lo hi
            (b2jOf l (l.getD (lo + d) "")) (fun _ => 0) best).2 := rfl
    rw [hunf, hrowf]
    have hidx : d + (c + 1) = d + 1 + c := by omega
    rw [hidx]
    exact ih (d + 1)
      (flmInner (mlRow l lo hi d) (lo + d) lo hi
        (b2jOf l (l.getD (lo + d) "")) (fun _ => 0) best).2
      (by omega) hbest'

theorem extDown_stop (a b : List String) (ok : String → Bool)
    (alo blo fuel bi bj sz : Nat) (h : ¬ alo < bi) :
    extDown a b ok alo blo fuel (bi, bj, sz) = (bi, bj, sz) := by
  cases fuel with
  | zero => rfl
  | succ f => rw [extDown, if_neg (by simp [h])]

theorem extUp_stop (a b : List String) (ok : String → Bool)
    (ahi bhi fuel bi bj sz : Nat) (h : ¬ bi + sz < ahi) :
    extUp a b ok ahi bhi fuel (bi, bj, sz) = (bi, bj, sz) := by
  cases fuel with
  | zero => rfl
  | succ f => rw [extUp, if_neg (by simp [h])]

/-- On two copies of `l` with the empty junk set, the first downward
extension walks an on-diagonal best all the way back to `lo`. -/
theorem extDown_true_diag (l : List String) (lo : Nat) :
    ∀ (fuel p B : Nat), lo ≤ p → p - lo ≤ fuel →
      extDown l l (fun s => !bJunk l s) lo lo fuel (p, p, B) =
        (lo, lo, B + (p - lo)) := by
  intro fuel
  induction fuel with
  | zero =>
    intro p B hlp hf
    obtain rfl : lo = p := by omega
    rw [extDown_stop l l _ lo lo 0 lo lo B (Nat.lt_irrefl lo)]
    simp
  | succ f ih =>
    intro p B hlp hf
    by_cases hplo : lo < p
    · rw [extDown, if_pos (by simp [bJunk, hplo])]
      rw [ih (p - 1) (B + 1) (by omega) (by omega)]
      have he : B + 1 + (p - 1 - lo) = B + (p - lo) := by omega
      rw [he]
    · obtain rfl : lo = p := by omega
      rw [extDown_stop l l _ lo lo (f + 1) lo lo B (Nat.lt_irrefl lo)]
      simp

/-- On two copies of `l` with the empty junk set, the first upward
extension grows an on-diagonal best at `lo` to the whole range. -/
theorem extUp_true_diag (l : List String) (lo hi : Nat) :
    ∀ (fuel S : Nat), lo + S ≤ hi → hi - (lo + S) ≤ fuel →
      extUp l l (fun s => !bJunk l s) hi hi fuel (lo, lo, S) =
        (lo, lo, hi - lo) := by
  intro fuel
  induction fuel with
  | zero =>
    intro S hS hf
    obtain rfl : S = hi - lo := by omega
    exact extUp_stop l l _ hi hi 0 lo lo (hi - lo) (by omega)
  | succ f ih =>
    intro S hS hf
    by_cases hlt : lo + S < hi
    · rw [extUp, if_pos (by simp [bJunk, hlt])]
      exact ih (S + 1) (by omega) (by omega)
    · obtain rfl : S = hi - lo := by omega
      exact extUp_stop l l _ hi hi (f + 1) lo lo (hi - lo) (by omega)

/-- `find_longest_match` on two copies of `l` over equal ranges returns
the whole range: the DP leaves an on-diagonal in-range best and the
extension loops stretch it to `(lo, lo, hi - lo)`. -/
theorem flm_equal (l : List String) (lo hi : Nat) (hlo : lo ≤ hi)
    (hn : hi ≤ l.length) :
    find_longest_match l l (b2jOf l) (bJunk l) lo hi lo hi =
      (lo, lo, hi - lo) := by
  have hz : (fun _ : Nat => (0 : Nat)) = mlRow l lo hi 0 := by
    funext j
    rw [mlRow]
  have main : ∀ best0 : Nat × Nat × Nat, GoodBest l lo hi (hi - lo) best0 →
      extUp l l (bJunk l) hi hi hi
        (extDown l l (bJunk l) lo lo
          (extUp l l (fun s => !bJunk l s) hi hi hi
            (extDown l l (fun s => !bJunk l s) lo lo best0.1 best0)).1
          (extUp l l (fun s => !bJunk l s) hi hi hi
            (extDown l l (fun s => !bJunk l s) lo lo best0.1 best0))) =
      (lo, lo, hi - lo) := by
    rintro ⟨bi, bj, B⟩ ⟨g1, g2, g3, _⟩
    obtain rfl : bi = bj := g1
    have hlobi : lo ≤ bi := g2
    have hbih : bi + B ≤ hi := g3
    dsimp only
    rw [extDown_true_diag l lo bi bi B hlobi (Nat.sub_le bi lo)]
    rw [extUp_true_diag l lo hi hi (B + (bi - lo)) (by omega) (by omega)]
    rw [extDown_stop l l _ lo lo (lo, lo, hi - lo).1 lo lo (hi - lo)
      (Nat.lt_irrefl lo)]
    rw [extUp_stop l l _ hi hi hi lo lo (hi - lo) (by omega)]
  have hgb : GoodBest l lo hi (hi - lo)
      (flmOuter l (b2jOf l) lo hi (List.range' lo (hi - lo))
        (fun _ => 0) (lo, lo, 0)) := by
    have hsp := flmOuter_spec l lo hi hn (hi - lo) 0 (lo, lo, 0) (by omega)
      ⟨rfl, Nat.le_refl lo, show lo + 0 ≤ hi by omega,
        fun r hr => absurd hr (Nat.not_lt_zero r)⟩
    rw [← hz] at hsp
    simpa using hsp
  exact main _ hgb

theorem mbRec_nilRange (l : List String) (p : Nat) (hp : p ≤ l.length) :
    ∀ fuel, mbRec l l (b2jOf l) (bJunk l) (fuel + 1) p p p p = [] := by
  intro fuel
  rw [mbRec]
  simp [flm_equal l p p (Nat.le_refl p) hp]

theorem mbRec_self (l : List String) (lo hi : Nat) (hlo : lo < hi)
    (hn : hi ≤ l.length) :
    ∀ fuel, mbRec l l (b2jOf l) (bJunk l) (fuel + 1 + 1) lo hi lo hi =
      [(lo, lo, hi - lo)] := by
  intro fuel
  have h1 := mbRec_nilRange l lo (by omega) fuel
  have h2 := mbRec_nilRange l hi hn fuel
  have h3 : lo + (hi - lo) = hi := by omega
  rw [mbRec]
  simp [flm_equal l lo hi (Nat.le_of_lt hlo) hn, Nat.sub_pos_of_lt hlo,
    h3, h1, h2]

/-- `get_matching_blocks` on two copies of `l`: the whole range (if any)
and the sentinel. -/
theorem get_matching_blocks_self (l : List String) :
    get_matching_blocks l l =
      (if 0 < l.length then [(0, 0, l.length)] else []) ++
        [(l.length, l.length, 0)] := by
  by_cases h0 : l.length = 0
  · rw [get_matching_blocks, h0]
    rw [mbRec_nilRange l 0 (Nat.zero_le _) (0 + 0)]
    simp [sortBlocks, mergeBlocks]
  · have hpos : 0 < l.length := Nat.pos_of_ne_zero h0
    rw [get_matching_blocks]
    have hfuel : l.length + l.length + 1 =
        l.length + l.length - 1 + 1 + 1 := by omega
    rw [hfuel]
    rw [mbRec_self l 0 l.length hpos (Nat.le_refl _)
      (l.length + l.length - 1)]
    rw [if_pos hpos]
    simp [sortBlocks, insertBlock, mergeBlocks, h0]

/-- `get_opcodes` on two copies of `l`: one `equal` opcode (or nothing at
all when `l` is empty). -/
theorem get_opcodes_self (l : List String) :
    get_opcodes l l =
      if 0 < l.length then [⟨"equal", 0, l.length, 0, l.length⟩]
      else [] := by
  rw [get_opcodes, get_matching_blocks_self]
  by_cases h0 : l.length = 0
  · rw [h0]
    simp [getOpcodesGo]
  · have hpos : 0 < l.length := Nat.pos_of_ne_zero h0
    rw [if_pos hpos, if_pos hpos]
    simp [getOpcodesGo, h0]

/-- `get_grouped_opcodes(3)` on two copies of `l` yields no group: the
single `equal` group is suppressed. -/
theorem get_grouped_opcodes_self (l : List String) :
    get_grouped_opcodes l l 3 = [] := by
  by_cases h0 : l.length = 0
  · simp [get_grouped_opcodes, get_opcodes_self, h0, fixupHead, fixupLast,
      groupedGo, groupKeep]
  · have hpos : 0 < l.length := Nat.pos_of_ne_zero h0
    have hc : ¬ (3 + 3 < min l.length (l.length - 3 + 3) - (l.length - 3)) := by
      omega
    simp [get_grouped_opcodes, get_opcodes_self, hpos, h0, fixupHead,
      fixupLast, groupedGo, groupKeep, hc]

/-- `difflib.unified_diff` on two equal line sequences emits nothing. -/
theorem unified_diff_self (l : List String) (fromfile tofile : String) :
    unified_diff l l fromfile tofile = [] := by
  simp [unified_diff, get_grouped_opcodes_self]

/-- The diff text `_store_diff_if_changed` computes for a previous row and
the current snapshot. -/
def diff_text_of (previous : SnapRow) (snapshot_id : Nat)
    (snapshot : SnapshotRecord) : String :=
  build_unified_diff previous.snapshot.html_content snapshot.html_content
    ("snapshot:" ++ toString previous.id)
    ("snapshot:" ++ toString snapshot_id)

theorem latest_fold_some :
    ∀ (xs : List SnapRow) (m : SnapRow),
      ∃ y, xs.foldl (fun acc r =>
        match acc with
        | none => some r
        | some m => if m.id < r.id then some r else some m) (some m) =
        some y := by
  intro xs
  induction xs with
  | nil =>
    intro m
    exact ⟨m, rfl⟩
  | cons r t ih =>
    intro m
    rw [List.foldl_cons]
    by_cases hcmp : m.id < r.id
    · simpa [hcmp] using ih r
    · simpa [hcmp] using ih m

/-- `_latest_previous_snapshot` returns nothing exactly when no earlier
row of the same competitor and page type exists. -/
theorem latest_previous_none_iff (db : DB) (competitor_id : Nat)
    (page_type : String) (current_snapshot_id : Nat) :
    latest_previous_snapshot db competitor_id page_type
        current_snapshot_id = none ↔
      db.snapshots.filter (fun r =>
        r.snapshot.competitor_id = competitor_id &&
        r.snapshot.page_type = page_type &&
        r.id < current_snapshot_id) = [] := by
  rw [latest_previous_snapshot]
  cases hxs : db.snapshots.filter (fun r =>
      r.snapshot.competitor_id = competitor_id &&
      r.snapshot.page_type = page_type &&
      r.id < current_snapshot_id) with
  | nil => simp
  | cons r t =>
    rw [List.foldl_cons]
    obtain ⟨y, hy⟩ := latest_fold_some t r
    simp [hy]

set_option maxHeartbeats 1600000 in
theorem store_diff_some_cases (db : DB) (snapshot_id : Nat)
    (snapshot : SnapshotRecord) : ∀ previous : SnapRow,
  latest_previous_snapshot db snapshot.competitor_id
    snapshot.page_type snapshot_id = some previous →
  (count_diff_changes (diff_text_of previous snapshot_id snapshot) =
      (0, 0) ∧
    store_diff_if_changed db snapshot_id snapshot = (db, false)) ∨
  (count_diff_changes (diff_text_of previous snapshot_id snapshot) ≠
      (0, 0) ∧
    store_diff_if_changed db snapshot_id snapshot =
      ({ db with diffs := db.diffs ++
        [⟨snapshot.competitor_id, snapshot.scrape_date,
          snapshot.page_type, previous.id, snapshot_id,
          diff_text_of previous snapshot_id snapshot,
          (count_diff_changes
            (diff_text_of previous snapshot_id snapshot)).1,
          (count_diff_changes
            (diff_text_of previous snapshot_id snapshot)).2⟩] },
        true)) := by
  intro previous hlp
  have hdt : build_unified_diff previous.snapshot.html_content
      snapshot.html_content ("snapshot:" ++ toString previous.id)
      ("snapshot:" ++ toString snapshot_id) =
      diff_text_of previous snapshot_id snapshot := rfl
  by_cases hem : diff_text_of previous snapshot_id snapshot = ""
  · left
    have hcz : count_diff_changes
        (diff_text_of previous snapshot_id snapshot) = (0, 0) := by
      rw [hem]
      rfl
    refine ⟨hcz, ?_⟩
    simp only [store_diff_if_changed, hlp]
    rw [hdt]
    rw [if_pos hem]
  · by_cases hcz : count_diff_changes
        (diff_text_of previous snapshot_id snapshot) = (0, 0)
    · left
      refine ⟨hcz, ?_⟩
      simp only [store_diff_if_changed, hlp]
      rw [hdt]
      rw [if_neg hem]
      simp [hcz]
    · right
      refine ⟨hcz, ?_⟩
      simp only [store_diff_if_changed, hlp]
      rw [hdt]
      rw [if_neg hem]
      have hb : ¬((count_diff_changes
          (diff_text_of previous snapshot_id snapshot)).1 = 0 &&
          (count_diff_changes
            (diff_text_of previous snapshot_id snapshot)).2 = 0) =
          true := by
        simp only [Bool.and_eq_true, decide_eq_true_eq]
        rintro ⟨h1, h2⟩
        exact hcz (Prod.ext h1 h2)
      rw [if_neg hb]

set_option maxHeartbeats 1600000 in
/-- C2: `_store_diff_if_changed` persists a `diffs` row iff a preceding
snapshot of the same competitor and page type exists and the computed
diff has a nonzero addition or removal count; when nothing is persisted
the state is unchanged, every persisted row is appended with at least one
positive count, and a first-ever snapshot (no preceding row) never
creates one. -/
theorem diff_row_persistence (db : DB) (snapshot_id : Nat)
    (snapshot : SnapshotRecord) :
    ((store_diff_if_changed db snapshot_id snapshot).2 = true ↔
      ∃ previous,
        latest_previous_snapshot db snapshot.competitor_id
            snapshot.page_type snapshot_id = some previous ∧
          count_diff_changes (diff_text_of previous snapshot_id snapshot) ≠
            (0, 0)) ∧
    ((store_diff_if_changed db snapshot_id snapshot).2 = false →
      (store_diff_if_changed db snapshot_id snapshot).1 = db) ∧
    ((store_diff_if_changed db snapshot_id snapshot).2 = true →
      ∃ row : DiffRow,
        (store_diff_if_changed db snapshot_id snapshot).1.diffs =
          db.diffs ++ [row] ∧
        (0 < row.additions_count ∨ 0 < row.removals_count)) ∧
    (latest_previous_snapshot db snapshot.competitor_id snapshot.page_type
        snapshot_id = none →
      store_diff_if_changed db snapshot_id snapshot = (db, false)) ∧
    (latest_previous_snapshot db snapshot.competitor_id snapshot.page_type
        snapshot_id = none ↔
      db.snapshots.filter (fun r =>
        r.snapshot.competitor_id = snapshot.competitor_id &&
        r.snapshot.page_type = snapshot.page_type &&
        r.id < snapshot_id) = []) := by
  have hcase := store_diff_some_cases db snapshot_id snapshot
  cases hlp : latest_previous_snapshot db snapshot.competitor_id
      snapshot.page_type snapshot_id with
  | none =>
    have hr : store_diff_if_changed db snapshot_id snapshot =
        (db, false) := by
      simp only [store_diff_if_changed, hlp]
    refine ⟨?_, ?_, ?_, fun _ => hr, ?_⟩
    · constructor
      · intro h
        rw [hr] at h
        exact absurd h (by simp)
      · rintro ⟨p, hp, _⟩
        exact absurd hp (by simp)
    · intro _
      rw [hr]
    · intro h
      rw [hr] at h
      exact absurd h (by simp)
    · constructor
      · intro _
        exact (latest_previous_none_iff db snapshot.competitor_id
          snapshot.page_type snapshot_id).mp hlp
      · intro _
        rfl
  | some previous =>
    rcases hcase previous hlp with ⟨hcz, hst⟩ | ⟨hcz, hst⟩
    · refine ⟨?_, ?_, ?_, ?_, ?_⟩
      · constructor
        · intro h
          rw [hst] at h
          exact absurd h (by simp)
        · rintro ⟨p, hp, hne⟩
          exact absurd (Option.some.inj hp ▸ hcz) hne
      · intro _
        rw [hst]
      · intro h
        rw [hst] at h
        exact absurd h (by simp)
      · intro h
        exact absurd h (by simp)
      · constructor
        · intro h
          exact absurd h (by simp)
        · intro hf
          have hn := (latest_previous_none_iff db snapshot.competitor_id
            snapshot.page_type snapshot_id).mpr hf
          rw [hlp] at hn
          exact absurd hn (by simp)
    · refine ⟨?_, ?_, ?_, ?_, ?_⟩
      · constructor
        · intro _
          exact ⟨previous, rfl, hcz⟩
        · intro _
          rw [hst]
      · intro h
        rw [hst] at h
        exact absurd h (by simp)
      · intro _
        rcases hcount : count_diff_changes
          (diff_text_of previous snapshot_id snapshot) with ⟨a, b⟩
        rw [hcount] at hst
        dsimp only at hst
        have hcz2 : (a, b) ≠ ((0 : Nat), (0 : Nat)) := hcount ▸ hcz
        have hor : 0 < a ∨ 0 < b := by
          rcases Nat.eq_zero_or_pos a with ha | ha
          · rcases Nat.eq_zero_or_pos b with hb | hb
            · exact absurd (by rw [ha, hb]) hcz2
            · exact Or.inr hb
          · exact Or.inl ha
        refine ⟨⟨snapshot.competitor_id, snapshot.scrape_date,
          snapshot.page_type, previous.id, snapshot_id,
          diff_text_of previous snapshot_id snapshot, a, b⟩, ?_, ?_⟩
        · rw [hst]
        · rcases hor with h | h
          · exact Or.inl h
          · exact Or.inr h
      · intro h
        exact absurd h (by simp)
      · constructor
        · intro h
          exact absurd h (by simp)
        · intro hf
          have hn := (latest_previous_none_iff db snapshot.competitor_id
            snapshot.page_type snapshot_id).mpr hf
          rw [hlp] at hn
          exact absurd hn (by simp)

/-- A first snapshot row used by the persistence witness. -/
def snapC2a : SnapshotRecord :=
  ⟨1, "2024-01-01", "t1", "pricing", "u", "<p>a</p>", "h1"⟩

/-- A second snapshot of the same competitor and page type with changed
visible text. -/
def snapC2b : SnapshotRecord :=
  ⟨1, "2024-01-02", "t2", "pricing", "u", "<p>b</p>", "h2"⟩

/-- A database holding only the first snapshot. -/
def dbC2 : DB := ⟨[⟨1, snapC2a⟩], [], 2⟩

set_option maxHeartbeats 2000000 in
/-- Witness for C2 on a concrete state: a changed page does persist a
row, by the iff of the theorem. -/
theorem diff_row_persistence_witness :
    (store_diff_if_changed dbC2 2 snapC2b).2 = true :=
  (diff_row_persistence dbC2 2 snapC2b).1.mpr
    ⟨⟨1, snapC2a⟩, by decide, by decide⟩

/-- An initial snapshot for the marker-prefix scenario. -/
def snapC9a : SnapshotRecord :=
  ⟨1, "2024-01-01", "t1", "home", "u", "<p>a</p>", "h1"⟩

/-- A second snapshot whose only change is a visible line starting with
`++`. -/
def snapC9b : SnapshotRecord :=
  ⟨1, "2024-01-02", "t2", "home", "u", "<p>a</p><p>++x</p>", "h2"⟩

/-- A database holding only the initial marker-prefix snapshot. -/
def dbC9 : DB := ⟨[⟨1, snapC9a⟩], [], 2⟩

set_option maxHeartbeats 4000000 in
/-- C9: the counting loop of `_count_diff_changes` skips every line
starting with `+++` or `---`, not only the two header lines; an added
content line starting with `++` appears in the diff as `+++...` and is
skipped, so a change consisting solely of such lines counts `(0, 0)` and
persists no `diffs` row although the normalized contents differ. -/
theorem diff_counter_marker_exclusion :
    (∀ (line : String) (ls : List String) (acc : Nat × Nat),
      strStarts line "+++" = true ∨ strStarts line "---" = true →
      countLinesGo (line :: ls) acc = countLinesGo ls acc) ∧
    normalize_for_diff "<p>a</p>" ≠
      normalize_for_diff "<p>a</p><p>++x</p>" ∧
    build_unified_diff "<p>a</p>" "<p>a</p><p>++x</p>" "snapshot:1"
      "snapshot:2" ≠ "" ∧
    count_diff_changes (build_unified_diff "<p>a</p>"
      "<p>a</p><p>++x</p>" "snapshot:1" "snapshot:2") = (0, 0) ∧
    store_diff_if_changed dbC9 2 snapC9b = (dbC9, false) := by
  refine ⟨?_, by decide, by decide, by decide, by decide⟩
  intro line ls acc h
  obtain ⟨a, r⟩ := acc
  rw [countLinesGo, if_pos (by rcases h with h | h <;> simp [h])]

/-- Witness for C9: the skip equation applied to the very diff line
`+++x` the scenario produces. -/
theorem diff_counter_marker_exclusion_witness :
    countLinesGo ["+++x", " a"] (0, 0) = countLinesGo [" a"] (0, 0) :=
  diff_counter_marker_exclusion.1 "+++x" [" a"] (0, 0)
    (Or.inl (by decide))

/-- The first snapshot of the timestamp counterexample. -/
def snapC3a : SnapshotRecord :=
  ⟨1, "2024-01-01", "t1", "home", "u", "<p>a</p><p>12:30x</p>", "h1"⟩

/-- The second snapshot: the same content with the time token changed. -/
def snapC3b : SnapshotRecord :=
  ⟨1, "2024-01-02", "t2", "home", "u", "<p>a</p><p>23:59x</p>", "h2"⟩

/-- A database holding only the first timestamp-scenario snapshot. -/
def dbC3 : DB := ⟨[⟨1, snapC3a⟩], [], 2⟩

set_option maxHeartbeats 4000000 in
/-- Counterexample to C3: two contents that differ only in a time-of-day
token (each matches the timestamp pattern in isolation) still produce
counts `(1, 1)` and a persisted `diffs` row, because the token abuts a
word character and the trailing word boundary of the pattern fails, so
the substitution leaves both contents unchanged. -/
theorem diff_suppression_counterexample :
    ("<p>a</p><p>12:30x</p>" : String) =
      "<p>a</p><p>" ++ "12:30" ++ "x</p>" ∧
    ("<p>a</p><p>23:59x</p>" : String) =
      "<p>a</p><p>" ++ "23:59" ++ "x</p>" ∧
    tsFullmatch "12:30" = true ∧
    tsFullmatch "23:59" = true ∧
    count_diff_changes (build_unified_diff "<p>a</p><p>12:30x</p>"
      "<p>a</p><p>23:59x</p>" "snapshot:1" "snapshot:2") = (1, 1) ∧
    (store_diff_if_changed dbC3 2 snapC3b).2 = true := by
  refine ⟨by decide, by decide, by decide, by decide, by decide, by decide⟩

/-- C3 (amended): when the two contents NORMALIZE identically (timestamp
masking plus whitespace collapse make the visible texts agree), the diff
text is empty, both counts are zero and no `diffs` row is persisted. -/
theorem diff_suppression_amended (prev cur from_label to_label : String)
    (h : normalize_for_diff prev = normalize_for_diff cur) :
    build_unified_diff prev cur from_label to_label = "" ∧
    count_diff_changes
      (build_unified_diff prev cur from_label to_label) = (0, 0) ∧
    ∀ (db : DB) (snapshot_id : Nat) (snapshot : SnapshotRecord)
      (previous : SnapRow),
      latest_previous_snapshot db snapshot.competitor_id
          snapshot.page_type snapshot_id = some previous →
      previous.snapshot.html_content = prev →
      snapshot.html_content = cur →
      store_diff_if_changed db snapshot_id snapshot = (db, false) := by
  have hbd : ∀ fl tl : String, build_unified_diff prev cur fl tl = "" := by
    intro fl tl
    rw [build_unified_diff, h, unified_diff_self]
    rfl
  refine ⟨hbd _ _, ?_, ?_⟩
  · rw [hbd]
    rfl
  · intro db snapshot_id snapshot previous hlp hprev hcur
    simp only [store_diff_if_changed, hlp]
    rw [hprev, hcur, if_pos (hbd _ _)]

set_option maxHeartbeats 2000000 in
/-- Witness for the amended C3: a concrete pair differing only in a
masked timestamp and in whitespace normalizes identically and yields the
empty diff. -/
theorem diff_suppression_amended_witness :
    normalize_for_diff "<p>updated 2024-01-05 10:33</p><p>fare $10</p>" =
      normalize_for_diff
        "<p>updated  2024-01-06T11:02</p><p>fare   $10</p>" ∧
    build_unified_diff "<p>updated 2024-01-05 10:33</p><p>fare $10</p>"
      "<p>updated  2024-01-06T11:02</p><p>fare   $10</p>"
      "snapshot:1" "snapshot:2" = "" :=
  ⟨by decide,
    (diff_suppression_amended _ _ "snapshot:1" "snapshot:2" (by decide)).1⟩

end CompetitorIntel
